import Mathlib

/-!
Verification of the b2b-email-campaign engine against its specification.

Strings are modelled as `List Char` (Python `str` is a sequence of code
points).  Python floats are modelled as rationals; `round(x, 2)` is modelled
as round-half-to-even at two decimal places.  Network and OS effects are
modelled as explicit oracle structures passed to the embedded functions.
-/

namespace B2B

/-! ## Character primitives (engine/normalize.py helpers)

`pyLower` models `str.lower` on the ASCII and Latin-1 letters the system
manipulates; other code points are left unchanged.  `isPySpace` models the
whitespace class used by `str.strip`/`str.split`, and `isWordChar` models the
regex class `\w` on the ASCII range.
-/

def pyLower (c : Char) : Char :=
  let n := c.toNat
  if 65 ≤ n ∧ n ≤ 90 then Char.ofNat (n + 32)
  else if 192 ≤ n ∧ n ≤ 222 ∧ n ≠ 215 then Char.ofNat (n + 32)
  else c

def isPySpace (c : Char) : Bool :=
  let n := c.toNat
  n == 32 || (9 ≤ n && n ≤ 13)

def isWordChar (c : Char) : Bool :=
  let n := c.toNat
  (48 ≤ n && n ≤ 57) || (65 ≤ n && n ≤ 90) || (97 ≤ n && n ≤ 122) || n == 95

/-- Python `str.strip`: drop leading and trailing whitespace. -/
def pyStrip (s : List Char) : List Char :=
  ((s.dropWhile isPySpace).reverse.dropWhile isPySpace).reverse

/-- NFKD decompositions (base letter only) for the lowercase Latin-1 letters;
letters without a canonical decomposition (æ, ø, ß, …) are absent and
decompose to themselves. -/
def accentBase : List (Char × Char) :=
  [('à','a'),('á','a'),('â','a'),('ã','a'),('ä','a'),('å','a'),('ç','c'),
   ('è','e'),('é','e'),('ê','e'),('ë','e'),('ì','i'),('í','i'),('î','i'),
   ('ï','i'),('ñ','n'),('ò','o'),('ó','o'),('ô','o'),('õ','o'),('ö','o'),
   ('ù','u'),('ú','u'),('û','u'),('ü','u'),('ý','y'),('ÿ','y')]

def isCombining (c : Char) : Bool :=
  0x300 ≤ c.toNat && c.toNat ≤ 0x36F

/-- `_strip_accents` per character: NFKD-decompose, then drop combining marks. -/
def stripAccentsChar (c : Char) : List Char :=
  if isCombining c then []
  else
    match accentBase.lookup c with
    | some b => [b]
    | none => [c]

/-- `_strip_accents` from engine/normalize.py. -/
def stripAccents (s : List Char) : List Char :=
  s.flatMap stripAccentsChar

/-- Python `str.split()` with no argument: split on whitespace runs, dropping
empty pieces.  `acc` holds the current word, reversed. -/
def pySplitAux : List Char → List Char → List (List Char)
  | [], acc => if acc = [] then [] else [acc.reverse]
  | c :: cs, acc =>
    if isPySpace c then
      if acc = [] then pySplitAux cs [] else acc.reverse :: pySplitAux cs []
    else pySplitAux cs (c :: acc)

def pySplit (s : List Char) : List (List Char) := pySplitAux s []

/-- `" ".join(tokens)`. -/
def joinSpace : List (List Char) → List Char
  | [] => []
  | [t] => t
  | t :: ts => t ++ ' ' :: joinSpace ts

/-! ## engine/normalize.py -/

/-- `LEGAL_FORMS` from engine/normalize.py. -/
def LEGAL_FORMS : List (List Char) :=
  ["sas".data, "sasu".data, "sarl".data, "eurl".data, "sa".data, "sci".data,
   "snc".data, "sccv".data, "selarl".data, "selas".data, "gmbh".data,
   "ltd".data, "llc".data, "inc".data, "bv".data, "nv".data, "spa".data,
   "plc".data, "ag".data, "co".data, "corp".data]

/-- Stage 1 of `normalize_company`: `name.lower().strip()`. -/
def nc_s1 (name : List Char) : List Char :=
  pyStrip (name.map pyLower)

/-- Stage 2: `_strip_accents(s)`. -/
def nc_s2 (name : List Char) : List Char :=
  stripAccents (nc_s1 name)

/-- Stage 3: `s.replace("&", " et ")`. -/
def nc_s3 (name : List Char) : List Char :=
  (nc_s2 name).flatMap (fun c => if c = '&' then " et ".data else [c])

/-- Stage 4: `re.sub(r"[^\w\s]", " ", s)`. -/
def nc_s4 (name : List Char) : List Char :=
  (nc_s3 name).map (fun c => if isWordChar c || isPySpace c then c else ' ')

/-- Stage 5: `[t for t in s.split() if t not in LEGAL_FORMS]`. -/
def nc_tokens (name : List Char) : List (List Char) :=
  (pySplit (nc_s4 name)).filter (fun t => !(LEGAL_FORMS.contains t))

/-- `normalize_company` from engine/normalize.py: lowercase, strip accents,
`&` → " et ", non-word characters → spaces, drop legal-form tokens, rejoin
(`" ".join(tokens).strip()`). -/
def normalize_company (name : List Char) : List Char :=
  if name = [] then [] else pyStrip (joinSpace (nc_tokens name))

/-- `normalize_name_part` from engine/normalize.py: lowercase, strip accents,
remove whitespace and hyphens, keep only word characters. -/
def normalize_name_part (name : List Char) : List Char :=
  if name = [] then []
  else
    let s1 := pyStrip (name.map pyLower)
    let s2 := stripAccents s1
    let s3 := s2.filter (fun c => !(isPySpace c || c == '-'))
    s3.filter isWordChar

/-- `company_to_slug` from engine/normalize.py: `normalize_company` then
remove all whitespace. -/
def company_to_slug (name : List Char) : List Char :=
  (normalize_company name).filter (fun c => !(isPySpace c))

/-! ## engine/email_pattern.py -/

/-- `PATTERN_DEFS` from engine/email_pattern.py: the nine construction rules,
each mapping a normalized (first, last) pair to a local-part.  The
`if f else l` guards of the Python lambdas are reproduced as emptiness
tests. -/
def PATTERN_DEFS : List (List Char × (List Char → List Char → List Char)) :=
  [("prenom.nom".data, fun f l => f ++ '.' :: l),
   ("prenomnom".data,  fun f l => f ++ l),
   ("pnom".data,       fun f l => if f = [] then l else f.take 1 ++ l),
   ("p.nom".data,      fun f l => if f = [] then l else f.take 1 ++ '.' :: l),
   ("prenom".data,     fun f _ => f),
   ("nom.prenom".data, fun f l => l ++ '.' :: f),
   ("nom".data,        fun _ l => l),
   ("nomp".data,       fun f l => if f = [] then l else l ++ f.take 1),
   ("prenom_nom".data, fun f l => f ++ '_' :: l)]

/-- The nine supported rule names, in `PATTERN_DEFS` order. -/
def PATTERN_NAMES : List (List Char) := PATTERN_DEFS.map Prod.fst

/-- `_guess_pattern_for_email` from engine/email_pattern.py: classify a local
part by shape into candidate rule names; defaults to `prenomnom`. -/
def _guess_pattern_for_email (loc : List Char) : List (List Char) :=
  let patterns :=
    if loc.contains '.' then
      match loc.splitOn '.' with
      | [a, b] =>
        if a.length = 1 then ["p.nom".data]
        else if b.length = 1 then []
        else ["prenom.nom".data, "nom.prenom".data]
      | _ => []
    else if loc.contains '_' then
      match loc.splitOn '_' with
      | [_, _] => ["prenom_nom".data]
      | _ => []
    else
      if loc.length ≤ 1 then []
      else if loc.length = 2 then ["pnom".data]
      else if loc.length ≤ 4 then ["pnom".data, "nom".data, "prenom".data]
      else ["prenomnom".data, "pnom".data]
  if patterns = [] then ["prenomnom".data] else patterns

/-- Python `dict`/`Counter` assignment: update in place, append new keys. -/
def cacheInsert {α : Type} : List (List Char × α) → List Char → α → List (List Char × α)
  | [], k, v => [(k, v)]
  | (k', v') :: rest, k, v =>
    if k' = k then (k, v) :: rest else (k', v') :: cacheInsert rest k v

/-- `Counter[key] += w` (missing keys start at 0 and are appended). -/
def bump : List (List Char × Nat) → List Char → Nat → List (List Char × Nat)
  | [], k, w => [(k, w)]
  | (k', n) :: rest, k, w =>
    if k' = k then (k', n + w) :: rest else (k', n) :: bump rest k w

/-- Add weight `w` to every pattern in `gs`. -/
def bumpAll (vs : List (List Char × Nat)) (gs : List (List Char)) (w : Nat) :
    List (List Char × Nat) :=
  gs.foldl (fun vs g => bump vs g w) vs

/-- `Counter.most_common(1)`: the first entry (in insertion order) whose count
is maximal, as Python's stable descending sort produces. -/
def firstMax : List (List Char × Nat) → Option (List Char × Nat)
  | [] => none
  | x :: xs =>
    match firstMax xs with
    | none => some x
    | some y => if x.2 < y.2 then some y else some x

/-- `Counter[key]` read access. -/
def countOf (vs : List (List Char × Nat)) (k : List Char) : Nat :=
  (vs.lookup k).getD 0

/-- `sum(counter.values())`. -/
def sumCounts (vs : List (List Char × Nat)) : Nat :=
  (vs.map Prod.snd).sum

/-- Python `round(x, 2)`: round to the nearest multiple of 1/100, ties to the
even multiple. -/
def round2 (q : ℚ) : ℚ :=
  let x := q * 100
  let n := ⌊x⌋
  let r := x - (n : ℚ)
  (if r < 1/2 then (n : ℚ)
   else if 1/2 < r then (n : ℚ) + 1
   else if n % 2 = 0 then (n : ℚ) else (n : ℚ) + 1) / 100

/-- The inner name-matching loop of `infer_pattern`: for the first known
(first, last) pair reproducing the local part under some rule, return the
list of matching rule names. -/
def firstExactMatch (loc : List Char) :
    List (List Char × List Char) → Option (List (List Char))
  | [] => none
  | (f, l) :: rest =>
    let matched := PATTERN_DEFS.filterMap
      (fun pd => if pd.2 f l = loc then some pd.1 else none)
    if matched = [] then firstExactMatch loc rest else some matched

/-- Accumulator of the voting loop in `infer_pattern`: the `pattern_votes`
counter and the `exact_matches` / `strong_matches` counts. -/
structure Tally where
  votes : List (List Char × Nat)
  exact : Nat
  strong : Nat

/-- One iteration of the voting loop of `infer_pattern` (lines 164-202 of
engine/email_pattern.py). -/
def tallyStep (normNames : List (List Char × List Char)) (t : Tally)
    (email : List Char) : Tally :=
  let loc := email.takeWhile (fun c => c ≠ '@')
  match firstExactMatch loc normNames with
  | some gs =>
    if gs.length = 1 then ⟨bumpAll t.votes gs 5, t.exact + 1, t.strong + 1⟩
    else ⟨bumpAll t.votes gs 3, t.exact + 1, t.strong⟩
  | none =>
    let gs := _guess_pattern_for_email loc
    if gs.length = 1 then ⟨bumpAll t.votes gs 3, t.exact, t.strong + 1⟩
    else if gs.length = 2 then ⟨bumpAll t.votes gs 2, t.exact, t.strong⟩
    else ⟨bumpAll t.votes gs 1, t.exact, t.strong⟩

/-- The whole voting loop of `infer_pattern`. -/
def tallyOf (normNames : List (List Char × List Char))
    (domainEmails : List (List Char)) : Tally :=
  domainEmails.foldl (tallyStep normNames) ⟨[], 0, 0⟩

/-- Rendering of the `debug` f-string of `infer_pattern`; the exact layout of
the Python dict repr is not load-bearing for any claim. -/
def debugRender (vs : List (List Char × Nat)) (nEmails exact strong : Nat) :
    List Char :=
  let entries := joinSpace (vs.map (fun p => '\'' :: p.1 ++ "\': ".data ++ (Nat.repr p.2).data))
  "votes=".data ++ [Char.ofNat 123] ++ entries ++ [Char.ofNat 125] ++
    ", emails_found=".data ++ (Nat.repr nEmails).data ++
    ", exact=".data ++ (Nat.repr exact).data ++
    ", strong=".data ++ (Nat.repr strong).data

/-- One `pattern_cache.json` entry. -/
structure PatternCacheEntry where
  pattern : List Char
  confidence : ℚ
  debug : List Char
deriving DecidableEq

/-- The `(pattern, confidence, debug)` triple returned by `infer_pattern`. -/
structure InferResult where
  pattern : List Char
  confidence : ℚ
  debug : List Char
deriving DecidableEq

/-- The `norm_names` preparation of `infer_pattern` (lines 153-157 of
engine/email_pattern.py). -/
def normNamesOf (known_names : Option (List (List Char × List Char))) :
    List (List Char × List Char) :=
  match known_names with
  | none => []
  | some kns => kns.filterMap (fun fl =>
      if fl.1 ≠ [] ∧ fl.2 ≠ [] then
        some (normalize_name_part fl.1, normalize_name_part fl.2)
      else none)

/-- `infer_pattern` from engine/email_pattern.py.  The JSON cache file is
passed and returned explicitly; everything else follows the source. -/
def infer_pattern (cache : List (List Char × PatternCacheEntry))
    (domain : List Char) (emails : List (List Char))
    (known_names : Option (List (List Char × List Char)))
    (force_refresh : Bool) :
    InferResult × List (List Char × PatternCacheEntry) :=
  match (if force_refresh then none else cache.lookup domain) with
  | some e => (⟨e.pattern, e.confidence, e.debug⟩, cache)
  | none =>
    if emails = [] then
      (⟨"prenom.nom".data, 0.50,
        "prenom.nom par défaut (pattern le plus fréquent)".data⟩, cache)
    else
      let domain_emails := emails.filter (fun e => ('@' :: domain).isSuffixOf e)
      if domain_emails = [] then
        (⟨"prenom.nom".data, 0.50,
          "prenom.nom par défaut (aucun email du domaine trouvé)".data⟩, cache)
      else
        let t := tallyOf (normNamesOf known_names) domain_emails
        match firstMax t.votes with
        | none => (⟨"prenom.nom".data, 0.15, "could not infer".data⟩, cache)
        | some best =>
          let best_pattern := best.1
          let best_count := countOf t.votes best_pattern
          let total_votes := sumCounts t.votes
          let vote_ratio : ℚ := (best_count : ℚ) / (max total_votes 1 : Nat)
          let base := vote_ratio * 0.45
          let email_bonus := min (0.20 : ℚ) ((domain_emails.length : ℚ) * 0.12)
          let exact_bonus := min (0.30 : ℚ) ((t.exact : ℚ) * 0.20)
          let strong_bonus := min (0.15 : ℚ) ((t.strong : ℚ) * 0.10)
          let prior_bonus : ℚ := if best_pattern = "prenom.nom".data then 0.10 else 0
          let confidence := max
            (round2 (min 0.95 (base + email_bonus + exact_bonus + strong_bonus + prior_bonus)))
            0.35
          let debug := debugRender t.votes domain_emails.length t.exact t.strong
          (⟨best_pattern, confidence, debug⟩,
           cacheInsert cache domain ⟨best_pattern, confidence, debug⟩)

/-- `generate_email` from engine/email_pattern.py. -/
def generate_email (firstname lastname domain pattern : List Char) :
    Option (List Char) :=
  let f := normalize_name_part firstname
  let l := normalize_name_part lastname
  if f = [] ∨ l = [] ∨ domain = [] then none
  else
    match PATTERN_DEFS.find? (fun pd => pd.1 == pattern) with
    | some pd => some (pd.2 f l ++ '@' :: domain)
    | none => some (f ++ '.' :: l ++ '@' :: domain)

/-- Local part of a generated address: everything before the first `@`. -/
def localPart (email : List Char) : List Char :=
  email.takeWhile (fun c => c ≠ '@')

/-! ## engine/outbox.py -/

/-- One row of the suggestion join (email_suggestions ⋈ prospects) read by
`build_outbox`. -/
structure SuggRow where
  suggested_email : Option (List Char)
  confidence_score : ℚ
  es_status : List Char
  firstname : List Char
  lastname : List Char
  company : List Char
  company_key : List Char
deriving DecidableEq

/-- One row of the messages table. -/
structure MsgRow where
  company : List Char
  company_key : List Char
  subject : List Char
  body_text : List Char
deriving DecidableEq

/-- One outbox row as inserted by `db.insert_outbox`. -/
structure OutboxRow where
  company : List Char
  company_key : List Char
  email : List Char
  firstname : List Char
  lastname : List Char
  subject : List Char
  body_text : List Char
  status : List Char
  error_message : List Char
deriving DecidableEq

def isAsciiAlpha (c : Char) : Bool :=
  let n := c.toNat
  (65 ≤ n && n ≤ 90) || (97 ≤ n && n ≤ 122)

def isAsciiAlphanum (c : Char) : Bool :=
  isAsciiAlpha c || (48 ≤ c.toNat && c.toNat ≤ 57)

/-- Character class `[a-zA-Z0-9._%+\-]` of `EMAIL_RE`. -/
def isEmailLocalChar (c : Char) : Bool :=
  isAsciiAlphanum c || c == '.' || c == '_' || c == '%' || c == '+' || c == '-'

/-- Character class `[a-zA-Z0-9.\-]` of `EMAIL_RE`. -/
def isEmailDomChar (c : Char) : Bool :=
  isAsciiAlphanum c || c == '.' || c == '-'

/-- `EMAIL_RE` from engine/outbox.py, as a whole-string matcher: since `@`
belongs to no character class, a match decomposes uniquely at the first `@`,
and the mandatory dot before the final `[a-zA-Z]{2,}` run is the last dot. -/
def EMAIL_RE_match (s : List Char) : Bool :=
  let localp := s.takeWhile (fun c => c ≠ '@')
  let rest := (s.dropWhile (fun c => c ≠ '@')).drop 1
  s.contains '@' && !localp.isEmpty && localp.all isEmailLocalChar &&
  !(rest.contains '@') && rest.contains '.' &&
  (let tld := (rest.reverse.takeWhile (fun c => c ≠ '.')).reverse
   let dom := rest.take (rest.length - tld.length - 1)
   !dom.isEmpty && dom.all isEmailDomChar &&
   decide (2 ≤ tld.length) && tld.all isAsciiAlpha)

/-- `_is_valid_email` from engine/outbox.py. -/
def _is_valid_email (email : List Char) : Bool :=
  if email = [] then false else EMAIL_RE_match (pyStrip email)

/-- `", ".join(parts)`. -/
def joinComma : List (List Char) → List Char
  | [] => []
  | [t] => t
  | t :: ts => t ++ ", ".data ++ joinComma ts

/-- The `messages_by_key` dict of `build_outbox`: first row per key wins. -/
def messagesByKey (ms : List MsgRow) : List (List Char × MsgRow) :=
  ms.foldl (fun acc m =>
    if (acc.lookup m.company_key).isSome then acc else acc ++ [(m.company_key, m)]) []

/-- `(s["suggested_email"] or "").strip().lower()`. -/
def suggEmail (s : SuggRow) : List Char :=
  (pyStrip (s.suggested_email.getD [])).map pyLower

/-- The non-skipped body of the `build_outbox` loop: status/error
classification and the inserted outbox row. -/
def mkOutboxRow (msgs : List (List Char × MsgRow)) (s : SuggRow) : OutboxRow :=
  let email := suggEmail s
  let errs1 :=
    if email = [] ∨ s.es_status = "NOT_FOUND".data then ["EMAIL_NOT_FOUND".data]
    else if !(_is_valid_email email) then ["INVALID_EMAIL".data]
    else []
  let msg := msgs.lookup s.company_key
  let errs2 := errs1 ++ (if msg.isNone then ["MESSAGE_NOT_FOUND".data] else [])
  let subject := match msg with | some m => m.subject | none => []
  let body := match msg with | some m => m.body_text | none => []
  let errs3 := errs2 ++
    (match msg with
     | some m => if pyStrip m.subject = [] then ["EMPTY_SUBJECT".data] else []
     | none => [])
  let errs4 := errs3 ++
    (match msg with
     | some m => if pyStrip m.body_text = [] then ["EMPTY_BODY".data] else []
     | none => [])
  let status := if errs4 = [] then "READY".data else "ERROR".data
  let error_message := if errs4 = [] then [] else joinComma errs4
  ⟨s.company, s.company_key, email, s.firstname, s.lastname, subject, body,
   status, error_message⟩

/-- One iteration of the `build_outbox` loop over suggestion rows; the
accumulator carries the inserted rows and the `seen_emails` set. -/
def buildStep (msgs : List (List Char × MsgRow))
    (acc : List OutboxRow × List (List Char)) (s : SuggRow) :
    List OutboxRow × List (List Char) :=
  let email := suggEmail s
  if email ≠ [] ∧ email ∈ acc.2 then acc
  else
    (acc.1 ++ [mkOutboxRow msgs s],
     if email ≠ [] then acc.2 ++ [email] else acc.2)

/-- `build_outbox` from engine/outbox.py: the suggestion rows are passed in
the order produced by `ORDER BY confidence_score DESC`; the outbox is cleared
first, so the result is exactly the list of inserted rows. -/
def build_outbox (suggestions : List SuggRow) (messages : List MsgRow) :
    List OutboxRow :=
  (suggestions.foldl (buildStep (messagesByKey messages)) ([], [])).1

/-! ## engine/domain_finder.py

The search engine and DNS are modelled as an oracle structure; `find_domain`
additionally returns the updated cache and the number of search-engine and
MX-lookup network attempts it made.
-/

structure SearchWorld where
  search : List Char → List (List Char)
  hasMx : List Char → Bool

/-- `IGNORE_DOMAINS` from engine/domain_finder.py. -/
def IGNORE_DOMAINS : List (List Char) :=
  ["google.com".data, "google.fr".data, "facebook.com".data, "linkedin.com".data,
   "twitter.com".data, "youtube.com".data, "instagram.com".data,
   "wikipedia.org".data, "pinterest.com".data, "tiktok.com".data, "x.com".data,
   "reddit.com".data, "amazon.com".data, "yelp.com".data, "tripadvisor.com".data,
   "pagesjaunes.fr".data, "societe.com".data, "infogreffe.fr".data,
   "verif.com".data, "pappers.fr".data, "indeed.com".data, "glassdoor.com".data,
   "duckduckgo.com".data, "bing.com".data]

/-- Text after the first `"://"`, or `none` when absent (then `urlparse`
yields no netloc and an empty hostname). -/
def afterScheme : List Char → Option (List Char)
  | [] => none
  | c :: cs =>
    if c = ':' ∧ cs.take 2 = ['/', '/'] then some (cs.drop 2)
    else afterScheme cs

/-- Modelled `urlparse(url).hostname` for the common `scheme://host/path`
shape: the netloc up to the next `/`, `?` or `#`.  Userinfo and port
stripping are not modelled. -/
def urlHostname (url : List Char) : List Char :=
  match afterScheme url with
  | none => []
  | some rest => rest.takeWhile (fun c => c ≠ '/' ∧ c ≠ '?' ∧ c ≠ '#')

/-- `_extract_domain` from engine/domain_finder.py. -/
def _extract_domain (url : List Char) : Option (List Char) :=
  let host0 := (urlHostname url).map pyLower
  let host := if host0.take 4 = "www.".data then host0.drop 4 else host0
  if !host.isEmpty && host.contains '.' && !(IGNORE_DOMAINS.contains host) then
    some host
  else none

/-- The candidate-domain tally of `find_domain` over the two search queries. -/
def tallyDomains (w : SearchWorld) (company : List Char) :
    List (List Char × Nat) :=
  let queries := [company ++ " site officiel".data, company ++ " email contact".data]
  queries.foldl (fun acc q =>
    (w.search q).foldl (fun acc u =>
      match _extract_domain u with
      | some d => bump acc d 1
      | none => acc) acc) []

def TLDS : List (List Char) :=
  [".fr".data, ".com".data, ".eu".data, ".io".data, ".net".data]

/-- The TLD-guess fallback loop of `find_domain`; also counts MX lookups. -/
def guessLoop (w : SearchWorld) (slug : List Char) :
    List (List Char) → Option (List Char) × Nat
  | [] => (none, 0)
  | tld :: rest =>
    if w.hasMx (slug ++ tld) then (some (slug ++ tld), 1)
    else
      let r := guessLoop w slug rest
      (r.1, r.2 + 1)

/-- Result of `find_domain`: returned value, updated cache, and the number of
search-engine queries and MX lookups issued. -/
structure FDResult where
  value : Option (List Char)
  cache : List (List Char × Option (List Char))
  searchCalls : Nat
  mxCalls : Nat
deriving DecidableEq

/-- `find_domain` from engine/domain_finder.py, against an explicit cache and
network oracle. -/
def find_domain (w : SearchWorld)
    (cache : List (List Char × Option (List Char)))
    (company : List Char) (force_refresh : Bool) : FDResult :=
  let slug := company_to_slug company
  if slug = [] then ⟨none, cache, 0, 0⟩
  else
    match (if force_refresh then none else cache.lookup slug) with
    | some v => ⟨v, cache, 0, 0⟩
    | none =>
      let cands := tallyDomains w company
      match firstMax cands with
      | some best =>
        if w.hasMx best.1 then
          ⟨some best.1, cacheInsert cache slug (some best.1), 2, 1⟩
        else
          let r := guessLoop w slug TLDS
          ⟨r.1, cacheInsert cache slug r.1, 2, 1 + r.2⟩
      | none =>
        let r := guessLoop w slug TLDS
        ⟨r.1, cacheInsert cache slug r.1, 2, r.2⟩

/-! ## engine/email_verifier.py

DNS, the SMTP transport and the Hunter.io API are modelled as oracles.  A
transport session either raises somewhere (connect, STARTTLS, RCPT, QUIT —
all collapsed into `exn`, each mapped to "unknown" by the source) or
completes with an RCPT reply code.  `smtp_check_email` returns `none` exactly
when the Python function raises (the uncaught `IndexError` of
`email.split("@")[1]` on an address without `@`).
-/

inductive TransportOutcome
  | exn : TransportOutcome
  | rcpt : Nat → TransportOutcome
deriving DecidableEq

structure HunterSearchResult where
  pattern : List Char
  rawPattern : List Char
  confidence : ℚ
deriving DecidableEq

structure HunterVerifyResult where
  result : List Char
  score : Nat
deriving DecidableEq

structure VerifWorld where
  dnsMx : List Char → Option (List (Nat × List Char))
  session : List Char → TransportOutcome
  hunterSearch : List Char → Option HunterSearchResult
  hunterVerify : List Char → Option HunterVerifyResult
  rand5 : Nat

/-- `sorted(answers, key=preference)[0]`: first record with minimal
preference (Python sort is stable). -/
def firstMinPref : List (Nat × List Char) → Option (Nat × List Char)
  | [] => none
  | x :: xs =>
    match firstMinPref xs with
    | none => some x
    | some y => if y.1 < x.1 then some y else some x

/-- `str.rstrip(".")`. -/
def rstripDots (s : List Char) : List Char :=
  (s.reverse.dropWhile (fun c => c == '.')).reverse

/-- `_get_mx_host` from engine/email_verifier.py. -/
def _get_mx_host (w : VerifWorld) (domain : List Char) : Option (List Char) :=
  match w.dnsMx domain with
  | none => none
  | some recs =>
    match firstMinPref recs with
    | none => none
    | some r => some (rstripDots r.2)

/-- `email.split("@")[1]`: text after the first `@`, or an `IndexError`. -/
def afterFirstAt (email : List Char) : Option (List Char) :=
  if email.contains '@' then
    some ((email.dropWhile (fun c => c ≠ '@')).drop 1)
  else none

/-- `smtp_check_email` from engine/email_verifier.py.  Returns the status
string; `none` models the uncaught `IndexError` on an address without `@`. -/
def smtp_check_email (w : VerifWorld) (email : List Char) :
    Option (List Char) :=
  match afterFirstAt email with
  | none => none
  | some domain =>
    match _get_mx_host w domain with
    | none => some "unknown".data
    | some _ =>
      match w.session email with
      | .exn => some "unknown".data
      | .rcpt code =>
        some (if code = 250 then "valid".data
              else if code ∈ [550, 551, 552, 553, 554] then "invalid".data
              else "unknown".data)

/-- The random probe address of `_is_catch_all`
(`zzztest{random.randint(10000,99999)}@domain`). -/
def fakeProbeAddr (w : VerifWorld) (domain : List Char) : List Char :=
  "zzztest".data ++ (Nat.repr w.rand5).data ++ '@' :: domain

/-- `_is_catch_all` from engine/email_verifier.py. -/
def _is_catch_all (w : VerifWorld) (domain : List Char) : Bool :=
  smtp_check_email w (fakeProbeAddr w domain) == some "valid".data

/-- Result of `find_best_email` plus the number of `smtp_check_email` probes
issued (catch-all probe included). -/
structure FBEResult where
  email : Option (List Char)
  pattern : List Char
  confidence : ℚ
  debug : List Char
  smtpCalls : Nat
deriving DecidableEq

/-- The inner `for pname, func in PATTERN_DEFS: if pname == pattern` lookup. -/
def applyPatternDef (pname f l : List Char) : Option (List Char) :=
  (PATTERN_DEFS.find? (fun pd => pd.1 == pname)).map (fun pd => pd.2 f l)

/-- Candidate generation of `find_best_email` (strategy 2): one address per
rule, in priority order. -/
def fbe_candidates (f l domain : List Char)
    (known_pattern : Option (List Char)) : List (List Char × List Char) :=
  let priority := match known_pattern with
    | some kp => kp :: PATTERN_NAMES.filter (fun p => !(p == kp))
    | none => ["prenom.nom".data, "p.nom".data, "prenomnom".data, "pnom".data,
               "prenom_nom".data, "nom.prenom".data, "prenom".data,
               "nom".data, "nomp".data]
  priority.filterMap (fun pname =>
    (applyPatternDef pname f l).map (fun lp => (pname, lp ++ '@' :: domain)))

/-- The per-candidate SMTP loop of `find_best_email` (strategy 3): returns
the first candidate whose probe reports valid, the number of invalid answers
seen before it, and the number of probes issued. -/
def smtpLoop (w : VerifWorld) :
    List (List Char × List Char) → Nat → Nat →
    Option (Option (List Char × List Char) × Nat × Nat)
  | [], inv, probes => some (none, inv, probes)
  | (p, e) :: rest, inv, probes =>
    match smtp_check_email w e with
    | none => none
    | some st =>
      if st = "valid".data then some (some (p, e), inv, probes + 1)
      else if st = "invalid".data then smtpLoop w rest (inv + 1) (probes + 1)
      else smtpLoop w rest inv (probes + 1)

/-- Strategies 2 and 3 of `find_best_email` (candidate generation, skip-SMTP
shortcut, catch-all probe, per-candidate SMTP loop); reached either when no
Hunter.io key is configured or when Hunter reports undeliverable. -/
def local_strategy (w : VerifWorld) (f l domain : List Char)
    (known_pattern : Option (List Char)) (skip_smtp : Bool) :
    Option FBEResult :=
  let candidates := fbe_candidates f l domain known_pattern
  match candidates with
  | [] => some ⟨none, "prenom.nom".data, 0,
                "impossible de générer des candidats".data, 0⟩
  | c0 :: _ =>
    if skip_smtp then
      some ⟨some c0.2, c0.1, (if c0.1 = "prenom.nom".data then 0.50 else 0.40),
            "pas de vérification SMTP".data, 0⟩
    else
      match smtp_check_email w (fakeProbeAddr w domain) with
      | none => none
      | some st =>
        if st = "valid".data then
          some ⟨some c0.2, c0.1,
                (if c0.1 = "prenom.nom".data then 0.55 else 0.45),
                "domaine catch-all (SMTP non fiable)".data, 1⟩
        else
          match smtpLoop w candidates 0 1 with
          | none => none
          | some (some best, inv, probes) =>
            some ⟨some best.2, best.1, min 0.95 (0.75 + (inv : ℚ) * 0.05),
                  "SMTP vérifié (".data ++ (Nat.repr inv).data ++
                    " invalides rejetés avant)".data, probes⟩
          | some (none, inv, probes) =>
            some ⟨some c0.2, c0.1,
                  (if c0.1 = "prenom.nom".data then 0.50 else 0.40),
                  "SMTP inconcluant (".data ++ (Nat.repr inv).data ++
                    " invalides)".data, probes⟩

/-- `find_best_email` from engine/email_verifier.py.  `none` models an
uncaught exception (unreachable for well-formed inputs). -/
def find_best_email (w : VerifWorld) (firstname lastname domain : List Char)
    (known_pattern : Option (List Char)) (skip_smtp : Bool) :
    Option FBEResult :=
  let f := normalize_name_part firstname
  let l := normalize_name_part lastname
  if f = [] ∨ l = [] ∨ domain = [] then
    some ⟨none, "prenom.nom".data, 0, "nom/prénom/domaine manquant".data, 0⟩
  else
    match w.hunterSearch domain with
    | some h =>
      let email := (applyPatternDef h.pattern f l).getD (f ++ '.' :: l) ++ '@' :: domain
      match w.hunterVerify email with
      | some v =>
        if v.result = "deliverable".data then
          some ⟨some email, h.pattern, 0.95,
                "Hunter.io: vérifié (".data ++ (Nat.repr v.score).data ++ "%)".data, 0⟩
        else if v.result = "undeliverable".data then
          local_strategy w f l domain known_pattern skip_smtp
        else
          some ⟨some email, h.pattern, 0.80, "Hunter.io: ".data ++ v.result, 0⟩
      | none =>
        some ⟨some email, h.pattern, h.confidence,
              "Hunter.io: pattern=".data ++ h.rawPattern, 0⟩
    | none => local_strategy w f l domain known_pattern skip_smtp

/-! ## Support predicates used by the theorems -/

/-- Characters that `normalize_company` leaves unchanged: ASCII word
characters other than uppercase letters. -/
def goodChar (c : Char) : Prop :=
  isWordChar c = true ∧ ¬(65 ≤ c.toNat ∧ c.toNat ≤ 90)

/-- Tokens that `normalize_company` outputs: nonempty, of good characters,
and not a legal form. -/
def goodTok (t : List Char) : Prop :=
  t ≠ [] ∧ (∀ c ∈ t, goodChar c) ∧ t ∉ LEGAL_FORMS

/-! ## Character-level lemmas -/

theorem toNat_ofNat_small {n : Nat} (h : n < 55296) : (Char.ofNat n).toNat = n := by
  have hv : n.isValidChar := Or.inl h
  simp only [Char.ofNat, hv, dif_pos, Char.ofNatAux, Char.toNat]
  rfl

theorem isWordChar_spec {c : Char} :
    isWordChar c = true ↔
      (48 ≤ c.toNat ∧ c.toNat ≤ 57) ∨ (65 ≤ c.toNat ∧ c.toNat ≤ 90) ∨
      (97 ≤ c.toNat ∧ c.toNat ≤ 122) ∨ c.toNat = 95 := by
  simp [isWordChar]
  tauto

theorem isPySpace_spec {c : Char} :
    isPySpace c = true ↔ c.toNat = 32 ∨ (9 ≤ c.toNat ∧ c.toNat ≤ 13) := by
  simp [isPySpace]

theorem goodChar_nonspace {c : Char} (h : goodChar c) : isPySpace c = false := by
  obtain ⟨hw, _⟩ := h
  rw [isWordChar_spec] at hw
  rw [Bool.eq_false_iff]
  intro hs
  rw [isPySpace_spec] at hs
  omega

theorem pyLower_good {c : Char} (h : goodChar c) : pyLower c = c := by
  obtain ⟨hw, hu⟩ := h
  rw [isWordChar_spec] at hw
  simp only [pyLower]
  rw [if_neg (by omega), if_neg (by omega)]

theorem notUpper_pyLower (c : Char) :
    ¬(65 ≤ (pyLower c).toNat ∧ (pyLower c).toNat ≤ 90) := by
  simp only [pyLower]
  split_ifs with h1 h2
  · rw [toNat_ofNat_small (by omega)]; omega
  · rw [toNat_ofNat_small (by omega)]; omega
  · omega

theorem lookup_none_of_keys_ge {l : List (Char × Char)} {c : Char}
    (hk : ∀ p ∈ l, 224 ≤ p.1.toNat) (hc : c.toNat < 224) : l.lookup c = none := by
  induction l with
  | nil => rfl
  | cons p rest ih =>
    have h1 : (c == p.1) = false := by
      rw [beq_eq_false_iff_ne]
      intro h
      have := hk p (List.mem_cons_self p rest)
      rw [← h] at this
      omega
    simp only [List.lookup, h1]
    exact ih (fun q hq => hk q (List.mem_cons_of_mem _ hq))

theorem accentBase_keys_ge : ∀ p ∈ accentBase, 224 ≤ p.1.toNat := by decide

theorem accentBase_vals_lower : ∀ p ∈ accentBase,
    97 ≤ p.2.toNat ∧ p.2.toNat ≤ 122 := by decide

theorem stripAccentsChar_good {c : Char} (h : goodChar c) :
    stripAccentsChar c = [c] := by
  obtain ⟨hw, _⟩ := h
  rw [isWordChar_spec] at hw
  have hlt : c.toNat < 224 := by omega
  have h1 : isCombining c = false := by
    rw [Bool.eq_false_iff]
    intro hs
    simp [isCombining] at hs
    omega
  simp [stripAccentsChar, h1, lookup_none_of_keys_ge accentBase_keys_ge hlt]

theorem lookup_mem {l : List (Char × Char)} {c b : Char}
    (h : l.lookup c = some b) : (c, b) ∈ l := by
  induction l with
  | nil => simp [List.lookup] at h
  | cons p rest ih =>
    simp only [List.lookup] at h
    by_cases hc : (c == p.1) = true
    · rw [hc] at h
      simp only [Option.some.injEq] at h
      have : c = p.1 := by simpa using hc
      subst this
      rw [← h]
      exact List.mem_cons_self _ _
    · rw [Bool.not_eq_true] at hc
      rw [hc] at h
      exact List.mem_cons_of_mem _ (ih h)

theorem notUpper_stripAccentsChar {c : Char}
    (h : ¬(65 ≤ c.toNat ∧ c.toNat ≤ 90)) :
    ∀ d ∈ stripAccentsChar c, ¬(65 ≤ d.toNat ∧ d.toNat ≤ 90) := by
  intro d hd
  simp only [stripAccentsChar] at hd
  split_ifs at hd with h1
  · simp at hd
  · match hm : accentBase.lookup c with
    | some b =>
      rw [hm] at hd
      simp at hd
      subst hd
      have hb := accentBase_vals_lower _ (lookup_mem hm)
      simp only [] at hb
      omega
    | none =>
      rw [hm] at hd
      simp at hd
      subst hd
      exact h

/-! ## List-level lemmas about the tokenization pipeline -/

theorem mem_pyStrip {c : Char} {s : List Char} (h : c ∈ pyStrip s) : c ∈ s := by
  simp only [pyStrip, List.mem_reverse] at h
  have h1 := (List.dropWhile_sublist (l := (s.dropWhile isPySpace).reverse)
    (p := isPySpace)).mem h
  rw [List.mem_reverse] at h1
  exact (List.dropWhile_sublist (l := s) (p := isPySpace)).mem h1

theorem dropWhile_eq_self_of_head {s : List Char}
    (h : ∀ c ∈ s.take 1, isPySpace c = false) :
    s.dropWhile isPySpace = s := by
  cases s with
  | nil => rfl
  | cons c cs =>
    have hc : isPySpace c = false := h c (by simp)
    simp [List.dropWhile, hc]

theorem pyStrip_eq_self {s : List Char}
    (h1 : ∀ c ∈ s.take 1, isPySpace c = false)
    (h2 : ∀ c ∈ s.reverse.take 1, isPySpace c = false) :
    pyStrip s = s := by
  rw [pyStrip, dropWhile_eq_self_of_head h1, dropWhile_eq_self_of_head h2,
    List.reverse_reverse]

theorem pySplitAux_tokens (p : Char → Prop) :
    ∀ (s acc : List Char), (∀ c ∈ s, p c) →
      (∀ c ∈ acc, p c ∧ isPySpace c = false) →
      ∀ t ∈ pySplitAux s acc, t ≠ [] ∧ ∀ c ∈ t, p c ∧ isPySpace c = false := by
  intro s
  induction s with
  | nil =>
    intro acc _ hacc t ht
    by_cases h0 : acc = []
    · simp [pySplitAux, h0] at ht
    · simp only [pySplitAux, if_neg h0, List.mem_singleton] at ht
      subst ht
      refine ⟨by simpa using h0, ?_⟩
      intro c hc
      exact hacc c (List.mem_reverse.mp hc)
  | cons c cs ih =>
    intro acc hs hacc t ht
    simp only [pySplitAux] at ht
    by_cases hsp : isPySpace c = true
    · rw [if_pos hsp] at ht
      by_cases h0 : acc = []
      · rw [if_pos h0] at ht
        exact ih [] (fun d hd => hs d (List.mem_cons_of_mem _ hd)) (by simp) t ht
      · rw [if_neg h0] at ht
        rcases List.mem_cons.mp ht with h | h
        · subst h
          refine ⟨by simpa using h0, ?_⟩
          intro d hd
          exact hacc d (List.mem_reverse.mp hd)
        · exact ih [] (fun d hd => hs d (List.mem_cons_of_mem _ hd)) (by simp) t h
    · rw [Bool.not_eq_true] at hsp
      rw [if_neg (by simp [hsp])] at ht
      refine ih (c :: acc) (fun d hd => hs d (List.mem_cons_of_mem _ hd)) ?_ t ht
      intro d hd
      rcases List.mem_cons.mp hd with h | h
      · subst h
        exact ⟨hs d (List.mem_cons_self _ _), hsp⟩
      · exact hacc d h

theorem pySplit_tokens (p : Char → Prop) {s : List Char}
    (hs : ∀ c ∈ s, p c) :
    ∀ t ∈ pySplit s, t ≠ [] ∧ ∀ c ∈ t, p c ∧ isPySpace c = false :=
  pySplitAux_tokens p s [] hs (by simp)

theorem joinSpace_cons_cons (t t' : List Char) (ts : List (List Char)) :
    joinSpace (t :: t' :: ts) = t ++ ' ' :: joinSpace (t' :: ts) := rfl

theorem joinSpace_ne_nil {toks : List (List Char)}
    (h0 : toks ≠ []) (h1 : ∀ t ∈ toks, t ≠ []) : joinSpace toks ≠ [] := by
  match toks with
  | [] => exact absurd rfl h0
  | [t] => exact h1 t (by simp)
  | t :: t' :: ts =>
    rw [joinSpace_cons_cons]
    have := h1 t (by simp)
    cases t with
    | nil => simp at this
    | cons a as => simp

theorem mem_joinSpace {c : Char} {toks : List (List Char)}
    (h : c ∈ joinSpace toks) : (∃ t ∈ toks, c ∈ t) ∨ c = ' ' := by
  match toks with
  | [] => simp [joinSpace] at h
  | [t] => exact Or.inl ⟨t, by simp, h⟩
  | t :: t' :: ts =>
    rw [joinSpace_cons_cons] at h
    rcases List.mem_append.mp h with h | h
    · exact Or.inl ⟨t, by simp, h⟩
    · rcases List.mem_cons.mp h with h | h
      · exact Or.inr h
      · rcases mem_joinSpace h with ⟨u, hu, hc⟩ | h
        · exact Or.inl ⟨u, List.mem_cons_of_mem _ hu, hc⟩
        · exact Or.inr h

theorem joinSpace_head_nonspace {toks : List (List Char)}
    (h : ∀ t ∈ toks, t ≠ [] ∧ ∀ c ∈ t, isPySpace c = false) :
    ∀ c ∈ (joinSpace toks).take 1, isPySpace c = false := by
  match toks with
  | [] => simp [joinSpace]
  | [t] =>
    intro c hc
    exact (h t (by simp)).2 c ((List.take_sublist 1 t).mem hc)
  | t :: t' :: ts =>
    intro c hc
    rw [joinSpace_cons_cons] at hc
    obtain ⟨ht, hch⟩ := h t (by simp)
    cases t with
    | nil => exact absurd rfl ht
    | cons a as =>
      simp only [List.cons_append, List.take_succ_cons, List.take_zero,
        List.mem_singleton] at hc
      subst hc
      exact hch c (by simp)

theorem joinSpace_last_nonspace {toks : List (List Char)}
    (h : ∀ t ∈ toks, t ≠ [] ∧ ∀ c ∈ t, isPySpace c = false) :
    ∀ c ∈ (joinSpace toks).reverse.take 1, isPySpace c = false := by
  match toks with
  | [] => simp [joinSpace]
  | [t] =>
    intro c hc
    have : c ∈ t := List.mem_reverse.mp ((List.take_sublist 1 _).mem hc)
    exact (h t (by simp)).2 c this
  | t :: t' :: ts =>
    intro c hc
    rw [joinSpace_cons_cons, List.reverse_append] at hc
    have hJ : joinSpace (t' :: ts) ≠ [] :=
      joinSpace_ne_nil (by simp) (fun u hu => (h u (List.mem_cons_of_mem _ hu)).1)
    have hJr : (' ' :: joinSpace (t' :: ts)).reverse =
        (joinSpace (t' :: ts)).reverse ++ [' '] := by simp
    rw [hJr, List.append_assoc] at hc
    have hne : (joinSpace (t' :: ts)).reverse ≠ [] := by simpa using hJ
    have hlen : 1 ≤ (joinSpace (t' :: ts)).reverse.length := by
      have := List.length_pos.mpr hne
      omega
    rw [List.take_append_of_le_length hlen] at hc
    exact joinSpace_last_nonspace
      (fun u hu => h u (List.mem_cons_of_mem _ hu)) c hc

theorem pySplitAux_append_word :
    ∀ (t s acc : List Char), (∀ c ∈ t, isPySpace c = false) →
      pySplitAux (t ++ s) acc = pySplitAux s (t.reverse ++ acc) := by
  intro t
  induction t with
  | nil => intro s acc _; simp
  | cons c t' ih =>
    intro s acc h
    have hc : isPySpace c = false := h c (List.mem_cons_self _ _)
    simp only [List.cons_append, pySplitAux, hc, Bool.false_eq_true, if_false,
      List.append_eq]
    rw [ih s (c :: acc) (fun d hd => h d (List.mem_cons_of_mem _ hd))]
    simp

theorem pySplit_joinSpace :
    ∀ (toks : List (List Char)),
      (∀ t ∈ toks, t ≠ [] ∧ ∀ c ∈ t, isPySpace c = false) →
      pySplit (joinSpace toks) = toks := by
  intro toks
  match toks with
  | [] => intro _; rfl
  | [t] =>
    intro h
    obtain ⟨ht, hch⟩ := h t (by simp)
    show pySplitAux (joinSpace [t]) [] = [t]
    have : joinSpace [t] = t ++ [] := by simp [joinSpace]
    rw [this, pySplitAux_append_word t [] [] hch]
    simp [pySplitAux, ht]
  | t :: t' :: ts =>
    intro h
    obtain ⟨ht, hch⟩ := h t (by simp)
    show pySplitAux (joinSpace (t :: t' :: ts)) [] = t :: t' :: ts
    rw [joinSpace_cons_cons, pySplitAux_append_word t _ [] hch]
    have hsp : isPySpace ' ' = true := by decide
    have hne : t.reverse ++ [] ≠ [] := by simpa using ht
    simp only [pySplitAux, hsp, if_true, if_neg hne]
    rw [List.append_nil, List.reverse_reverse]
    congr 1
    exact pySplit_joinSpace (t' :: ts) (fun u hu => h u (List.mem_cons_of_mem _ hu))

theorem flatMap_id_of_singleton {s : List Char} {f : Char → List Char}
    (h : ∀ c ∈ s, f c = [c]) : s.flatMap f = s := by
  induction s with
  | nil => rfl
  | cons c cs ih =>
    simp only [List.flatMap_cons, h c (List.mem_cons_self _ _)]
    rw [ih (fun d hd => h d (List.mem_cons_of_mem _ hd))]
    rfl

theorem map_id_of_fixed {s : List Char} {f : Char → Char}
    (h : ∀ c ∈ s, f c = c) : s.map f = s := by
  rw [List.map_congr_left h]
  simp

/-! ## normalize_company: output shape and idempotence -/

theorem nc_s1_notUpper (s : List Char) :
    ∀ c ∈ nc_s1 s, ¬(65 ≤ c.toNat ∧ c.toNat ≤ 90) := by
  intro c hc
  have h1 := mem_pyStrip hc
  simp only [List.mem_map] at h1
  obtain ⟨c', _, rfl⟩ := h1
  exact notUpper_pyLower c'

theorem nc_s2_notUpper (s : List Char) :
    ∀ c ∈ nc_s2 s, ¬(65 ≤ c.toNat ∧ c.toNat ≤ 90) := by
  intro c hc
  simp only [nc_s2, stripAccents, List.mem_flatMap] at hc
  obtain ⟨c', hc', hmem⟩ := hc
  exact notUpper_stripAccentsChar (nc_s1_notUpper s c' hc') c hmem

theorem nc_s3_notUpper (s : List Char) :
    ∀ c ∈ nc_s3 s, ¬(65 ≤ c.toNat ∧ c.toNat ≤ 90) := by
  intro c hc
  simp only [nc_s3, List.mem_flatMap] at hc
  obtain ⟨c', hc', hmem⟩ := hc
  by_cases ha : c' = '&'
  · rw [if_pos ha] at hmem
    have : c = ' ' ∨ c = 'e' ∨ c = 't' ∨ c = ' ' := by
      simpa using hmem
    rcases this with rfl | rfl | rfl | rfl <;> decide
  · rw [if_neg ha] at hmem
    have : c = c' := by simpa using hmem
    subst this
    exact nc_s2_notUpper s c hc'

theorem nc_s4_chars (s : List Char) :
    ∀ c ∈ nc_s4 s,
      (isWordChar c || isPySpace c) = true ∧ ¬(65 ≤ c.toNat ∧ c.toNat ≤ 90) := by
  intro c hc
  simp only [nc_s4, List.mem_map] at hc
  obtain ⟨c', hc', rfl⟩ := hc
  by_cases hw : (isWordChar c' || isPySpace c') = true
  · rw [if_pos hw]
    exact ⟨hw, nc_s3_notUpper s c' hc'⟩
  · rw [if_neg hw]
    exact ⟨by decide, by decide⟩

theorem nc_tokens_good (s : List Char) : ∀ t ∈ nc_tokens s, goodTok t := by
  intro t ht
  simp only [nc_tokens, List.mem_filter] at ht
  obtain ⟨hmem, hforms⟩ := ht
  obtain ⟨hne, hct⟩ := pySplit_tokens
    (fun c => (isWordChar c || isPySpace c) = true ∧ ¬(65 ≤ c.toNat ∧ c.toNat ≤ 90))
    (nc_s4_chars s) t hmem
  refine ⟨hne, ?_, ?_⟩
  · intro c hc
    obtain ⟨⟨hws, hnu⟩, hns⟩ := hct c hc
    rcases Bool.or_eq_true_iff.mp hws with hw | hsp
    · exact ⟨hw, hnu⟩
    · rw [hns] at hsp
      exact absurd hsp (by decide)
  · simpa using hforms

theorem goodTok_flat {toks : List (List Char)} (h : ∀ t ∈ toks, goodTok t) :
    ∀ t ∈ toks, t ≠ [] ∧ ∀ c ∈ t, isPySpace c = false :=
  fun t ht => ⟨(h t ht).1, fun c hc => goodChar_nonspace ((h t ht).2.1 c hc)⟩

theorem normalize_company_shape (s : List Char) :
    ∃ toks, normalize_company s = joinSpace toks ∧ ∀ t ∈ toks, goodTok t := by
  by_cases h0 : s = []
  · refine ⟨[], ?_, by simp⟩
    simp [normalize_company, h0, joinSpace]
  · refine ⟨nc_tokens s, ?_, nc_tokens_good s⟩
    simp only [normalize_company, if_neg h0]
    exact pyStrip_eq_self
      (joinSpace_head_nonspace (goodTok_flat (nc_tokens_good s)))
      (joinSpace_last_nonspace (goodTok_flat (nc_tokens_good s)))

theorem normalize_company_fix {toks : List (List Char)}
    (h : ∀ t ∈ toks, goodTok t) :
    normalize_company (joinSpace toks) = joinSpace toks := by
  by_cases h0 : toks = []
  · subst h0
    rfl
  · have htokflat := goodTok_flat h
    have hJne : joinSpace toks ≠ [] :=
      joinSpace_ne_nil h0 (fun t ht => (h t ht).1)
    have hchar : ∀ c ∈ joinSpace toks, goodChar c ∨ c = ' ' := by
      intro c hc
      rcases mem_joinSpace hc with ⟨t, ht, hct⟩ | h'
      · exact Or.inl ((h t ht).2.1 c hct)
      · exact Or.inr h'
    have hstrip : pyStrip (joinSpace toks) = joinSpace toks :=
      pyStrip_eq_self (joinSpace_head_nonspace htokflat)
        (joinSpace_last_nonspace htokflat)
    have hs1 : nc_s1 (joinSpace toks) = joinSpace toks := by
      rw [nc_s1, map_id_of_fixed, hstrip]
      intro c hc
      rcases hchar c hc with hg | rfl
      · exact pyLower_good hg
      · decide
    have hs2 : nc_s2 (joinSpace toks) = joinSpace toks := by
      rw [nc_s2, hs1, stripAccents, flatMap_id_of_singleton]
      intro c hc
      rcases hchar c hc with hg | rfl
      · exact stripAccentsChar_good hg
      · decide
    have hs3 : nc_s3 (joinSpace toks) = joinSpace toks := by
      rw [nc_s3, hs2, flatMap_id_of_singleton]
      intro c hc
      have hne : c ≠ '&' := by
        rcases hchar c hc with hg | rfl
        · intro hh
          subst hh
          exact absurd hg.1 (by decide)
        · decide
      rw [if_neg hne]
    have hs4 : nc_s4 (joinSpace toks) = joinSpace toks := by
      rw [nc_s4, hs3, map_id_of_fixed]
      intro c hc
      have hcond : (isWordChar c || isPySpace c) = true := by
        rcases hchar c hc with hg | rfl
        · rw [hg.1]
          rfl
        · decide
      rw [if_pos hcond]
    have htoks : nc_tokens (joinSpace toks) = toks := by
      rw [nc_tokens, hs4, pySplit_joinSpace toks htokflat]
      apply List.filter_eq_self.mpr
      intro t ht
      have : t ∉ LEGAL_FORMS := (h t ht).2.2
      simpa using this
    simp only [normalize_company, if_neg hJne]
    rw [htoks, hstrip]

/-- C4 (counterexample): the claim states that `normalize_company` maps
"ACME S.A.S." to "acme"; the code maps it to "acme s a s" — the dots turn
into spaces, the single-letter tokens "s"/"a" are not legal forms, so they
survive. -/
theorem C4_counterexample :
    normalize_company "ACME S.A.S.".data ≠ "acme".data := by decide

/-- C4 (amended): `normalize_company` is idempotent, and it maps "Acme SAS"
to "acme"; but "ACME S.A.S." maps to the distinct key "acme s a s". -/
theorem C4_normalize_amended :
    (∀ x : List Char, normalize_company (normalize_company x) = normalize_company x) ∧
    normalize_company "Acme SAS".data = "acme".data ∧
    normalize_company "ACME S.A.S.".data = "acme s a s".data := by
  refine ⟨fun x => ?_, by decide, by decide⟩
  obtain ⟨toks, heq, hgood⟩ := normalize_company_shape x
  rw [heq]
  exact normalize_company_fix hgood

/-- C5 (counterexample): the claim states
`companyToSlug "Acme & Co" = "acmeetco"`; since "co" is in the legal-form
set it is stripped, so the code returns "acmeet". -/
theorem C5_counterexample :
    company_to_slug "Acme & Co".data ≠ "acmeetco".data := by decide

/-- C5 (amended): `companyToSlug "Acme & Co"` returns exactly "acmeet": the
ampersand becomes "et", the legal suffix "co" is stripped, and all whitespace
is removed. -/
theorem C5_slug : company_to_slug "Acme & Co".data = "acmeet".data := by decide

/-! ## C3: structural round-trip of generated addresses -/

/-- C3 (counterexample): for the representative typical pair (jean, dupont)
and the rule "nomp", the generated local part is "dupontj", whose structural
guesses are [prenomnom, pnom] — the rule "nomp" is not among them (it is in
fact never produced by `_guess_pattern_for_email`). -/
theorem C3_counterexample :
    "nomp".data ∉ _guess_pattern_for_email (localPart
      ((generate_email "jean".data "dupont".data "acme.fr".data "nomp".data).getD [])) := by
  decide

/-- C3 (amended): the structural round-trip holds for the rules prenom.nom,
prenomnom, pnom, p.nom, nom.prenom and prenom_nom on the typical pair
(jean, dupont) and the hyphenated pair (Jean-Pierre, Dupont-Martin), for
prenom on the typical pair, and for pnom, p.nom and prenom_nom on the
one-letter pair (j, d); it fails for nom and nomp. -/
theorem C3_roundtrip_amended :
    ([("prenom.nom", "jean", "dupont"), ("prenom.nom", "Jean-Pierre", "Dupont-Martin"),
      ("prenomnom", "jean", "dupont"), ("prenomnom", "Jean-Pierre", "Dupont-Martin"),
      ("pnom", "jean", "dupont"), ("pnom", "Jean-Pierre", "Dupont-Martin"),
      ("p.nom", "jean", "dupont"), ("p.nom", "Jean-Pierre", "Dupont-Martin"),
      ("nom.prenom", "jean", "dupont"), ("nom.prenom", "Jean-Pierre", "Dupont-Martin"),
      ("prenom_nom", "jean", "dupont"), ("prenom_nom", "Jean-Pierre", "Dupont-Martin"),
      ("prenom", "jean", "dupont"),
      ("pnom", "j", "d"), ("p.nom", "j", "d"), ("prenom_nom", "j", "d")].all
      (fun c => (_guess_pattern_for_email (localPart
        ((generate_email c.2.1.data c.2.2.data "acme.fr".data c.1.data).getD []))).contains
        c.1.data)) = true := by
  decide

/-! ## C9: generate_email fallback for unknown pattern names -/

/-- C9: `generate_email` called with a pattern name that is not one of the
nine supported rules does not return null and does not raise: it falls back
to the firstname.lastname construction. -/
theorem C9_generate_fallback (fn ln d p : List Char)
    (hf : normalize_name_part fn ≠ []) (hl : normalize_name_part ln ≠ [])
    (hd : d ≠ []) (hp : p ∉ PATTERN_NAMES) :
    generate_email fn ln d p =
      some (normalize_name_part fn ++ '.' :: normalize_name_part ln ++ '@' :: d) := by
  have hfind : PATTERN_DEFS.find? (fun pd => pd.1 == p) = none := by
    rw [List.find?_eq_none]
    intro pd hpd
    rw [Bool.not_eq_true, beq_eq_false_iff_ne]
    intro hbeq
    exact hp (hbeq ▸ List.mem_map_of_mem Prod.fst hpd)
  simp only [generate_email, hfind]
  rw [if_neg (by simp [hf, hl, hd])]

/-- C9 (witness): concrete instance at ("Jean", "Dupont", "acme.fr",
"bogus"). -/
theorem C9_generate_fallback_witness :
    generate_email "Jean".data "Dupont".data "acme.fr".data "bogus".data =
      some (normalize_name_part "Jean".data ++ '.' ::
        normalize_name_part "Dupont".data ++ '@' :: "acme.fr".data) ∧
    (normalize_name_part "Jean".data ++ '.' ::
        normalize_name_part "Dupont".data ++ '@' :: "acme.fr".data) =
      "jean.dupont@acme.fr".data :=
  ⟨C9_generate_fallback "Jean".data "Dupont".data "acme.fr".data "bogus".data
    (by decide) (by decide) (by decide) (by decide), by decide⟩

/-! ## C10: the vote tally is nonempty whenever domain emails exist -/

theorem ite_default_ne_nil {α : Type} [DecidableEq α] (l : List α) (x : α) :
    (if l = [] then [x] else l) ≠ [] := by
  split_ifs with h
  · simp
  · exact h

theorem guess_ne_nil (loc : List Char) : _guess_pattern_for_email loc ≠ [] :=
  ite_default_ne_nil _ _

theorem bump_ne_nil (vs : List (List Char × Nat)) (k : List Char) (w : Nat) :
    bump vs k w ≠ [] := by
  match vs with
  | [] => simp [bump]
  | (k', n) :: rest =>
    simp only [bump]
    split_ifs <;> simp

theorem bumpAll_ne_nil {vs : List (List Char × Nat)} {gs : List (List Char)}
    (w : Nat) (h : vs ≠ [] ∨ gs ≠ []) : bumpAll vs gs w ≠ [] := by
  induction gs generalizing vs with
  | nil =>
    rcases h with h | h
    · simpa [bumpAll] using h
    · exact absurd rfl h
  | cons g gs ih =>
    rw [bumpAll, List.foldl_cons]
    exact ih (Or.inl (bump_ne_nil vs g w))

theorem firstExactMatch_ne_nil {loc : List Char}
    {nn : List (List Char × List Char)} {gs : List (List Char)}
    (h : firstExactMatch loc nn = some gs) : gs ≠ [] := by
  induction nn with
  | nil => simp [firstExactMatch] at h
  | cons fl rest ih =>
    obtain ⟨f, l⟩ := fl
    simp only [firstExactMatch] at h
    split_ifs at h with hm
    · exact ih h
    · simp only [Option.some.injEq] at h
      rw [← h]
      exact hm

theorem tallyStep_votes_ne_nil (nn : List (List Char × List Char)) (t : Tally)
    (e : List Char) : (tallyStep nn t e).votes ≠ [] := by
  rcases hm : firstExactMatch (e.takeWhile (fun c => c ≠ '@')) nn with _ | gs
  · simp only [tallyStep, hm]
    have hgs := guess_ne_nil (e.takeWhile (fun c => c ≠ '@'))
    split_ifs <;> exact bumpAll_ne_nil _ (Or.inr hgs)
  · simp only [tallyStep, hm]
    have hgs := firstExactMatch_ne_nil hm
    split_ifs <;> exact bumpAll_ne_nil _ (Or.inr hgs)

theorem tally_foldl_ne_nil (nn : List (List Char × List Char)) :
    ∀ (de : List (List Char)) (t : Tally), de ≠ [] →
      (de.foldl (tallyStep nn) t).votes ≠ []
  | [], _, h => absurd rfl h
  | e :: rest, t, _ => by
    rw [List.foldl_cons]
    cases rest with
    | nil =>
      rw [List.foldl_nil]
      exact tallyStep_votes_ne_nil nn t e
    | cons x xs =>
      exact tally_foldl_ne_nil nn (x :: xs) (tallyStep nn t e) (by simp)

theorem tallyOf_votes_ne_nil (nn : List (List Char × List Char))
    {de : List (List Char)} (h : de ≠ []) : (tallyOf nn de).votes ≠ [] :=
  tally_foldl_ne_nil nn de ⟨[], 0, 0⟩ h

theorem firstMax_isSome {vs : List (List Char × Nat)} (h : vs ≠ []) :
    (firstMax vs).isSome = true := by
  match vs with
  | [] => exact absurd rfl h
  | x :: xs =>
    simp only [firstMax]
    split
    · simp
    · split_ifs <;> simp

/-- C10: in every cache-missing call to `infer_pattern` for which some email
ends with "@domain", structural guessing returns at least one guess for every
local part, the vote tally is nonempty, and hence the could-not-infer branch
(confidence 0.15) is unreachable: the returned confidence is at least 0.35. -/
theorem C10_no_infer_failure (cache : List (List Char × PatternCacheEntry))
    (domain : List Char) (emails : List (List Char))
    (known_names : Option (List (List Char × List Char))) (force : Bool)
    (hmiss : force = true ∨ cache.lookup domain = none)
    (hde : emails.filter (fun e => ('@' :: domain).isSuffixOf e) ≠ []) :
    (∀ loc : List Char, _guess_pattern_for_email loc ≠ []) ∧
    (tallyOf (normNamesOf known_names)
      (emails.filter (fun e => ('@' :: domain).isSuffixOf e))).votes ≠ [] ∧
    (0.35 : ℚ) ≤ (infer_pattern cache domain emails known_names force).1.confidence := by
  have hsc : (if force then none else cache.lookup domain) = none := by
    rcases hmiss with rfl | h
    · rfl
    · cases force <;> simp [h]
  have hne : emails ≠ [] := by
    intro h
    rw [h] at hde
    exact hde rfl
  have hv : (tallyOf (normNamesOf known_names)
      (emails.filter (fun e => ('@' :: domain).isSuffixOf e))).votes ≠ [] :=
    tallyOf_votes_ne_nil _ hde
  refine ⟨guess_ne_nil, hv, ?_⟩
  obtain ⟨b, hb⟩ := Option.isSome_iff_exists.mp (firstMax_isSome hv)
  simp only [infer_pattern, hsc, if_neg hne, if_neg hde, hb]
  exact le_max_right _ _

/-! ## C1: the confidence formula -/

theorem bump_keys (vs : List (List Char × Nat)) (k : List Char) (w : Nat) :
    (bump vs k w).map Prod.fst =
      if k ∈ vs.map Prod.fst then vs.map Prod.fst
      else vs.map Prod.fst ++ [k] := by
  induction vs with
  | nil => simp [bump]
  | cons p rest ih =>
    obtain ⟨k', n⟩ := p
    simp only [bump]
    by_cases h : k' = k
    · subst h
      simp
    · rw [if_neg h]
      simp only [List.map_cons]
      rw [ih]
      by_cases hm : k ∈ rest.map Prod.fst
      · rw [if_pos hm, if_pos (by simp [hm])]
      · have hnotin : ¬ k ∈ k' :: rest.map Prod.fst := by
          simp only [List.mem_cons]
          push_neg
          exact ⟨fun hh => h hh.symm, hm⟩
        rw [if_neg hm, if_neg hnotin]
        simp

theorem bump_nodup {vs : List (List Char × Nat)} (k : List Char) (w : Nat)
    (h : (vs.map Prod.fst).Nodup) : ((bump vs k w).map Prod.fst).Nodup := by
  rw [bump_keys]
  split_ifs with hm
  · exact h
  · simp [List.nodup_append, h, hm]

theorem bumpAll_nodup {vs : List (List Char × Nat)} (gs : List (List Char))
    (w : Nat) (h : (vs.map Prod.fst).Nodup) :
    ((bumpAll vs gs w).map Prod.fst).Nodup := by
  induction gs generalizing vs with
  | nil => simpa [bumpAll]
  | cons g gs ih =>
    rw [bumpAll, List.foldl_cons]
    exact ih (bump_nodup g w h)

theorem tallyStep_nodup (nn : List (List Char × List Char)) (t : Tally)
    (e : List Char) (h : (t.votes.map Prod.fst).Nodup) :
    ((tallyStep nn t e).votes.map Prod.fst).Nodup := by
  rcases hm : firstExactMatch (e.takeWhile (fun c => c ≠ '@')) nn with _ | gs <;>
    simp only [tallyStep, hm] <;>
    split_ifs <;>
    exact bumpAll_nodup _ _ h

theorem tally_foldl_nodup (nn : List (List Char × List Char)) :
    ∀ (de : List (List Char)) (t : Tally), (t.votes.map Prod.fst).Nodup →
      ((de.foldl (tallyStep nn) t).votes.map Prod.fst).Nodup
  | [], _, h => h
  | e :: rest, t, h => by
    rw [List.foldl_cons]
    exact tally_foldl_nodup nn rest (tallyStep nn t e) (tallyStep_nodup nn t e h)

theorem tallyOf_nodup (nn : List (List Char × List Char))
    (de : List (List Char)) : ((tallyOf nn de).votes.map Prod.fst).Nodup :=
  tally_foldl_nodup nn de ⟨[], 0, 0⟩ (by simp)

theorem firstMax_mem : ∀ {vs : List (List Char × Nat)} {b : List Char × Nat},
    firstMax vs = some b → b ∈ vs := by
  intro vs
  induction vs with
  | nil => intro b h; simp [firstMax] at h
  | cons x xs ih =>
    intro b h
    simp only [firstMax] at h
    rcases hxs : firstMax xs with _ | y <;>
      simp only [hxs, Option.some.injEq] at h
    · rw [← h]
      exact List.mem_cons_self _ _
    · split_ifs at h with hcmp
      · simp only [Option.some.injEq] at h
        rw [← h]
        exact List.mem_cons_of_mem _ (ih hxs)
      · simp only [Option.some.injEq] at h
        rw [← h]
        exact List.mem_cons_self _ _

theorem lookup_nodup : ∀ {vs : List (List Char × Nat)} {k : List Char} {n : Nat},
    (vs.map Prod.fst).Nodup → (k, n) ∈ vs → vs.lookup k = some n := by
  intro vs
  induction vs with
  | nil => intro k n _ hmem; simp at hmem
  | cons p rest ih =>
    intro k n hnd hmem
    obtain ⟨k', n'⟩ := p
    rw [List.map_cons, List.nodup_cons] at hnd
    rcases List.mem_cons.mp hmem with h | h
    · rw [Prod.mk.injEq] at h
      obtain ⟨rfl, rfl⟩ := h
      simp [List.lookup]
    · have hk : (k == k') = false := by
        rw [beq_eq_false_iff_ne]
        intro hh
        apply hnd.1
        rw [← hh]
        exact List.mem_map.mpr ⟨(k, n), h, rfl⟩
      simp only [List.lookup, hk]
      exact ih hnd.2 h

theorem countOf_firstMax {vs : List (List Char × Nat)} {b : List Char × Nat}
    (hnd : (vs.map Prod.fst).Nodup) (hb : firstMax vs = some b) :
    countOf vs b.1 = b.2 := by
  have hmem : (b.1, b.2) ∈ vs := firstMax_mem hb
  rw [countOf, lookup_nodup hnd hmem]
  rfl

theorem bump_pos {vs : List (List Char × Nat)} {k : List Char} {w : Nat}
    (hw : 1 ≤ w) (h : ∀ p ∈ vs, 1 ≤ p.2) : ∀ p ∈ bump vs k w, 1 ≤ p.2 := by
  induction vs with
  | nil =>
    intro p hp
    simp only [bump, List.mem_singleton] at hp
    rw [hp]
    exact hw
  | cons q rest ih =>
    obtain ⟨k', n⟩ := q
    intro p hp
    simp only [bump] at hp
    split_ifs at hp with hk
    · rcases List.mem_cons.mp hp with rfl | hp
      · have := h (k', n) (List.mem_cons_self _ _)
        simp only [] at this ⊢
        omega
      · exact h p (List.mem_cons_of_mem _ hp)
    · rcases List.mem_cons.mp hp with rfl | hp
      · exact h _ (List.mem_cons_self _ _)
      · exact ih (fun q hq => h q (List.mem_cons_of_mem _ hq)) p hp

theorem bumpAll_pos {vs : List (List Char × Nat)} {gs : List (List Char)}
    {w : Nat} (hw : 1 ≤ w) (h : ∀ p ∈ vs, 1 ≤ p.2) :
    ∀ p ∈ bumpAll vs gs w, 1 ≤ p.2 := by
  induction gs generalizing vs with
  | nil =>
    intro p hp
    rw [bumpAll, List.foldl_nil] at hp
    exact h p hp
  | cons g gs ih =>
    rw [bumpAll, List.foldl_cons]
    exact ih (bump_pos hw h)

theorem tallyStep_pos (nn : List (List Char × List Char)) (t : Tally)
    (e : List Char) (h : ∀ p ∈ t.votes, 1 ≤ p.2) :
    ∀ p ∈ (tallyStep nn t e).votes, 1 ≤ p.2 := by
  rcases hm : firstExactMatch (e.takeWhile (fun c => c ≠ '@')) nn with _ | gs <;>
    simp only [tallyStep, hm] <;>
    split_ifs <;>
    exact bumpAll_pos (by norm_num) h

theorem tally_foldl_pos (nn : List (List Char × List Char)) :
    ∀ (de : List (List Char)) (t : Tally), (∀ p ∈ t.votes, 1 ≤ p.2) →
      ∀ p ∈ (de.foldl (tallyStep nn) t).votes, 1 ≤ p.2
  | [], _, h => h
  | e :: rest, t, h => by
    rw [List.foldl_cons]
    exact tally_foldl_pos nn rest (tallyStep nn t e) (tallyStep_pos nn t e h)

theorem tallyOf_pos (nn : List (List Char × List Char))
    (de : List (List Char)) : ∀ p ∈ (tallyOf nn de).votes, 1 ≤ p.2 :=
  tally_foldl_pos nn de ⟨[], 0, 0⟩ (by simp)

theorem sumCounts_pos {vs : List (List Char × Nat)} (hne : vs ≠ [])
    (h : ∀ p ∈ vs, 1 ≤ p.2) : 1 ≤ sumCounts vs := by
  match vs with
  | [] => exact absurd rfl hne
  | p :: rest =>
    have := h p (List.mem_cons_self _ _)
    simp only [sumCounts, List.map_cons, List.sum_cons]
    omega

/-- Closed form of the confidence computed by `infer_pattern` on a cache
miss with at least one domain email: the claimed weighted sum, capped at
0.95, rounded to two decimals (half to even), floored at 0.35. -/
theorem infer_confidence_closed_form (cache : List (List Char × PatternCacheEntry))
    (domain : List Char) (emails : List (List Char))
    (known_names : Option (List (List Char × List Char))) (force : Bool)
    (hmiss : force = true ∨ cache.lookup domain = none)
    (hde : emails.filter (fun e => ('@' :: domain).isSuffixOf e) ≠ []) :
    ∃ w, firstMax (tallyOf (normNamesOf known_names)
        (emails.filter (fun e => ('@' :: domain).isSuffixOf e))).votes = some w ∧
      (infer_pattern cache domain emails known_names force).1.pattern = w.1 ∧
      (infer_pattern cache domain emails known_names force).1.confidence =
        max (round2 (min 0.95
          (0.45 * ((w.2 : ℚ) / (sumCounts (tallyOf (normNamesOf known_names)
              (emails.filter (fun e => ('@' :: domain).isSuffixOf e))).votes : ℚ))
           + min 0.20 (0.12 * ((emails.filter
              (fun e => ('@' :: domain).isSuffixOf e)).length : ℚ))
           + min 0.30 (0.20 * ((tallyOf (normNamesOf known_names)
              (emails.filter (fun e => ('@' :: domain).isSuffixOf e))).exact : ℚ))
           + min 0.15 (0.10 * ((tallyOf (normNamesOf known_names)
              (emails.filter (fun e => ('@' :: domain).isSuffixOf e))).strong : ℚ))
           + (if w.1 = "prenom.nom".data then (0.10 : ℚ) else 0)))) 0.35 := by
  have hsc : (if force then none else cache.lookup domain) = none := by
    rcases hmiss with rfl | h
    · rfl
    · cases force <;> simp [h]
  have hne : emails ≠ [] := by
    intro h
    rw [h] at hde
    exact hde rfl
  have hv : (tallyOf (normNamesOf known_names)
      (emails.filter (fun e => ('@' :: domain).isSuffixOf e))).votes ≠ [] :=
    tallyOf_votes_ne_nil _ hde
  obtain ⟨b, hb⟩ := Option.isSome_iff_exists.mp (firstMax_isSome hv)
  refine ⟨b, hb, ?_, ?_⟩
  · simp only [infer_pattern, hsc, if_neg hne, if_neg hde, hb]
  · simp only [infer_pattern, hsc, if_neg hne, if_neg hde, hb]
    rw [countOf_firstMax (tallyOf_nodup _ _) hb,
      Nat.max_eq_left (sumCounts_pos hv (tallyOf_pos _ _))]
    congr 2
    ring_nf

/-- C1 (counterexample): at domain "x.io" with harvested emails
jeandupont@x.io and abc@x.io (a cache miss, no known names), the tally is
prenomnom 2, pnom 3, nom 1, prenom 1 (winner pnom, 3 of 7 votes, two domain
emails, no exact or unambiguous matches): the claimed clamped weighted sum is
0.45·(3/7) + 0.20 = 11/28 ≈ 0.3929, but the code rounds to two decimals and
returns 0.39. -/
theorem C1_counterexample :
    (infer_pattern [] "x.io".data
        ["jeandupont@x.io".data, "abc@x.io".data] none false).1.confidence ≠
      max (min (0.95 : ℚ)
        (0.45 * (3 / 7) + min 0.20 (0.12 * 2) + min 0.30 (0.20 * 0)
          + min 0.15 (0.10 * 0) + 0)) 0.35 := by
  obtain ⟨w, hw, -, hconf⟩ := infer_confidence_closed_form [] "x.io".data
    ["jeandupont@x.io".data, "abc@x.io".data] none false (Or.inr rfl) (by decide)
  have hfm : firstMax (tallyOf (normNamesOf none)
      ((["jeandupont@x.io".data, "abc@x.io".data]).filter
        (fun e => ('@' :: "x.io".data).isSuffixOf e))).votes
      = some ("pnom".data, 3) := by decide
  rw [hfm] at hw
  obtain rfl := Option.some.inj hw
  have h1 : sumCounts (tallyOf (normNamesOf none)
      ((["jeandupont@x.io".data, "abc@x.io".data]).filter
        (fun e => ('@' :: "x.io".data).isSuffixOf e))).votes = 7 := by decide
  have h2 : (tallyOf (normNamesOf none)
      ((["jeandupont@x.io".data, "abc@x.io".data]).filter
        (fun e => ('@' :: "x.io".data).isSuffixOf e))).exact = 0 := by decide
  have h3 : (tallyOf (normNamesOf none)
      ((["jeandupont@x.io".data, "abc@x.io".data]).filter
        (fun e => ('@' :: "x.io".data).isSuffixOf e))).strong = 0 := by decide
  have h4 : ((["jeandupont@x.io".data, "abc@x.io".data]).filter
      (fun e => ('@' :: "x.io".data).isSuffixOf e)).length = 2 := by decide
  rw [h1, h2, h3, h4, if_neg (by decide)] at hconf
  rw [hconf]
  have hcode : max (round2 (min 0.95
      ((0.45 : ℚ) * (((("pnom".data, 3) : List Char × Nat).2 : ℚ) / ((7 : Nat) : ℚ))
        + min 0.20 (0.12 * ((2 : Nat) : ℚ)) + min 0.30 (0.20 * ((0 : Nat) : ℚ))
        + min 0.15 (0.10 * ((0 : Nat) : ℚ)) + 0))) 0.35 = 39 / 100 := by
    norm_num [round2, min_def, max_def]
  have hclaim : max (min (0.95 : ℚ)
      (0.45 * (3 / 7) + min 0.20 (0.12 * 2) + min 0.30 (0.20 * 0)
        + min 0.15 (0.10 * 0) + 0)) 0.35 = 11 / 28 := by
    norm_num [min_def, max_def]
  rw [hcode, hclaim]
  norm_num

/-- C1 (amended): for every cache-missing call to `inferPattern` with at
least one email ending in "@domain", the returned confidence equals the
weighted sum 0.45·(winning pattern votes / total votes)
+ min(0.20, 0.12·#domain emails) + min(0.30, 0.20·#exact matches)
+ min(0.15, 0.10·#unambiguous matches) + (0.10 if the winner is the
firstname.lastname rule), capped at 0.95, **rounded to two decimal places
(half to even)**, and then floored at 0.35. -/
theorem C1_confidence_amended (cache : List (List Char × PatternCacheEntry))
    (domain : List Char) (emails : List (List Char))
    (known_names : Option (List (List Char × List Char))) (force : Bool)
    (hmiss : force = true ∨ cache.lookup domain = none)
    (hde : emails.filter (fun e => ('@' :: domain).isSuffixOf e) ≠ []) :
    ∃ w, firstMax (tallyOf (normNamesOf known_names)
        (emails.filter (fun e => ('@' :: domain).isSuffixOf e))).votes = some w ∧
      (infer_pattern cache domain emails known_names force).1.pattern = w.1 ∧
      (infer_pattern cache domain emails known_names force).1.confidence =
        max (round2 (min 0.95
          (0.45 * ((w.2 : ℚ) / (sumCounts (tallyOf (normNamesOf known_names)
              (emails.filter (fun e => ('@' :: domain).isSuffixOf e))).votes : ℚ))
           + min 0.20 (0.12 * ((emails.filter
              (fun e => ('@' :: domain).isSuffixOf e)).length : ℚ))
           + min 0.30 (0.20 * ((tallyOf (normNamesOf known_names)
              (emails.filter (fun e => ('@' :: domain).isSuffixOf e))).exact : ℚ))
           + min 0.15 (0.10 * ((tallyOf (normNamesOf known_names)
              (emails.filter (fun e => ('@' :: domain).isSuffixOf e))).strong : ℚ))
           + (if w.1 = "prenom.nom".data then (0.10 : ℚ) else 0)))) 0.35 :=
  infer_confidence_closed_form cache domain emails known_names force hmiss hde

/-- C1 (witness): the amended statement at the counterexample input. -/
theorem C1_confidence_amended_witness :
    ∃ w, firstMax (tallyOf (normNamesOf none)
        ((["jeandupont@x.io".data, "abc@x.io".data]).filter
          (fun e => ('@' :: "x.io".data).isSuffixOf e))).votes = some w ∧
      (infer_pattern [] "x.io".data
        ["jeandupont@x.io".data, "abc@x.io".data] none false).1.pattern = w.1 ∧
      (infer_pattern [] "x.io".data
        ["jeandupont@x.io".data, "abc@x.io".data] none false).1.confidence =
        max (round2 (min 0.95
          (0.45 * ((w.2 : ℚ) / (sumCounts (tallyOf (normNamesOf none)
              ((["jeandupont@x.io".data, "abc@x.io".data]).filter
                (fun e => ('@' :: "x.io".data).isSuffixOf e))).votes : ℚ))
           + min 0.20 (0.12 * (((["jeandupont@x.io".data, "abc@x.io".data]).filter
              (fun e => ('@' :: "x.io".data).isSuffixOf e)).length : ℚ))
           + min 0.30 (0.20 * ((tallyOf (normNamesOf none)
              ((["jeandupont@x.io".data, "abc@x.io".data]).filter
                (fun e => ('@' :: "x.io".data).isSuffixOf e))).exact : ℚ))
           + min 0.15 (0.10 * ((tallyOf (normNamesOf none)
              ((["jeandupont@x.io".data, "abc@x.io".data]).filter
                (fun e => ('@' :: "x.io".data).isSuffixOf e))).strong : ℚ))
           + (if w.1 = "prenom.nom".data then (0.10 : ℚ) else 0)))) 0.35 :=
  C1_confidence_amended [] "x.io".data
    ["jeandupont@x.io".data, "abc@x.io".data] none false (Or.inr rfl) (by decide)

/-! ## C2: outbox deduplication -/

theorem mkOutboxRow_email (msgs : List (List Char × MsgRow)) (s : SuggRow) :
    (mkOutboxRow msgs s).email = suggEmail s := rfl

theorem buildAux_filter (msgs : List (List Char × MsgRow)) {e : List Char}
    (he : e ≠ []) :
    ∀ (suggs : List SuggRow) (rows : List OutboxRow) (seen : List (List Char)),
      (e ∈ seen →
        (suggs.foldl (buildStep msgs) (rows, seen)).1.filter (fun r => r.email == e) =
          rows.filter (fun r => r.email == e)) ∧
      (e ∉ seen →
        (suggs.foldl (buildStep msgs) (rows, seen)).1.filter (fun r => r.email == e) =
          rows.filter (fun r => r.email == e) ++
            ((suggs.filter (fun s => suggEmail s == e)).take 1).map (mkOutboxRow msgs)) := by
  intro suggs
  induction suggs with
  | nil =>
    intro rows seen
    constructor
    · intro _
      rfl
    · intro _
      simp
  | cons s ss ih =>
    intro rows seen
    rw [List.foldl_cons]
    by_cases hskip : suggEmail s ≠ [] ∧ suggEmail s ∈ seen
    · have hstep : buildStep msgs (rows, seen) s = (rows, seen) := by
        simp only [buildStep]
        rw [if_pos hskip]
      rw [hstep]
      constructor
      · intro hin
        exact (ih rows seen).1 hin
      · intro hout
        have hne2 : (suggEmail s == e) = false := by
          rw [beq_eq_false_iff_ne]
          intro hh
          exact hout (hh ▸ hskip.2)
        rw [List.filter_cons_of_neg (by simpa using hne2)]
        exact (ih rows seen).2 hout
    · have hstep : buildStep msgs (rows, seen) s =
          (rows ++ [mkOutboxRow msgs s],
           if suggEmail s ≠ [] then seen ++ [suggEmail s] else seen) := by
        simp only [buildStep]
        rw [if_neg hskip]
      rw [hstep]
      by_cases heq : suggEmail s = e
      · have hnnil : suggEmail s ≠ [] := by
          rw [heq]
          exact he
        constructor
        · intro hin
          exact absurd ⟨hnnil, heq ▸ hin⟩ hskip
        · intro _
          rw [if_pos hnnil]
          have hin' : e ∈ seen ++ [suggEmail s] :=
            List.mem_append_right _ (by simp [heq])
          rw [(ih (rows ++ [mkOutboxRow msgs s]) (seen ++ [suggEmail s])).1 hin']
          have hrow : ((mkOutboxRow msgs s).email == e) = true := by
            rw [mkOutboxRow_email, heq]
            simp
          rw [List.filter_append, List.filter_cons_of_pos (by simpa using hrow),
            List.filter_nil, List.filter_cons_of_pos (by simpa using heq)]
          simp
      · have hrowne : ((mkOutboxRow msgs s).email == e) = false := by
          rw [mkOutboxRow_email, beq_eq_false_iff_ne]
          exact heq
        have hfilrows : (rows ++ [mkOutboxRow msgs s]).filter (fun r => r.email == e) =
            rows.filter (fun r => r.email == e) := by
          rw [List.filter_append, List.filter_cons_of_neg (by simpa using hrowne),
            List.filter_nil, List.append_nil]
        have hsf : (s :: ss).filter (fun s => suggEmail s == e) =
            ss.filter (fun s => suggEmail s == e) :=
          List.filter_cons_of_neg (by simpa using heq)
        constructor
        · intro hin
          have hin' : e ∈ (if suggEmail s ≠ [] then seen ++ [suggEmail s] else seen) := by
            split_ifs
            · exact List.mem_append_left _ hin
            · exact hin
          rw [(ih _ _).1 hin', hfilrows]
        · intro hout
          have hout' : e ∉ (if suggEmail s ≠ [] then seen ++ [suggEmail s] else seen) := by
            split_ifs
            · intro hmem
              rcases List.mem_append.mp hmem with h1 | h1
              · exact hout h1
              · have h2 : e = suggEmail s := by simpa using h1
                exact heq h2.symm
            · exact hout
          rw [(ih _ _).2 hout', hfilrows, hsf]

theorem build_outbox_filter (suggestions : List SuggRow)
    (messages : List MsgRow) {e : List Char} (he : e ≠ []) :
    (build_outbox suggestions messages).filter (fun r => r.email == e) =
      ((suggestions.filter (fun s => suggEmail s == e)).take 1).map
        (mkOutboxRow (messagesByKey messages)) := by
  have h := (buildAux_filter (messagesByKey messages) he suggestions [] []).2 (by simp)
  simpa [build_outbox] using h

/-- C2: over suggestion rows ordered by confidence descending, at most one
outbox row with a given non-empty (normalized) email survives a build; and
when exactly two suggestions carry the same non-empty email with different
confidence scores, exactly one outbox row is produced for that email and it
comes from the first (hence strictly higher-confidence) suggestion. -/
theorem C2_outbox_dedup (suggestions : List SuggRow) (messages : List MsgRow)
    (hsorted : suggestions.Pairwise
      (fun a b => b.confidence_score ≤ a.confidence_score)) :
    (∀ e : List Char, e ≠ [] →
      ((build_outbox suggestions messages).filter (fun r => r.email == e)).length ≤ 1) ∧
    (∀ e : List Char, e ≠ [] → ∀ s1 s2 : SuggRow,
      suggestions.filter (fun s => suggEmail s == e) = [s1, s2] →
      s1.confidence_score ≠ s2.confidence_score →
      (build_outbox suggestions messages).filter (fun r => r.email == e) =
        [mkOutboxRow (messagesByKey messages) s1] ∧
      s2.confidence_score < s1.confidence_score) := by
  constructor
  · intro e he
    rw [build_outbox_filter suggestions messages he]
    rw [List.length_map]
    have := List.length_take_le 1 (suggestions.filter (fun s => suggEmail s == e))
    omega
  · intro e he s1 s2 hfil hne
    constructor
    · rw [build_outbox_filter suggestions messages he, hfil]
      rfl
    · have hpw : List.Pairwise (fun a b => b.confidence_score ≤ a.confidence_score)
          [s1, s2] := by
        rw [← hfil]
        exact hsorted.sublist (List.filter_sublist _)
      have hle : s2.confidence_score ≤ s1.confidence_score := by
        rcases List.pairwise_cons.mp hpw with ⟨h1, _⟩
        exact h1 s2 (by simp)
      exact hle.lt_of_ne hne.symm

/-- C2 (witness): two suggestions whose raw addresses normalize to the same
email, confidences 1 and 0; the build keeps only the first. -/
theorem C2_outbox_dedup_witness :
    (build_outbox
      [⟨some "Jean.Dupont@acme.fr ".data, 1, "FOUND".data, "Jean".data,
        "Dupont".data, "Acme".data, "acme".data⟩,
       ⟨some "jean.dupont@acme.fr".data, 0, "FOUND".data, "J".data,
        "D".data, "Acme".data, "acme".data⟩]
      [⟨"Acme".data, "acme".data, "Hello".data, "Body".data⟩]).filter
        (fun r => r.email == "jean.dupont@acme.fr".data) =
      [mkOutboxRow (messagesByKey [⟨"Acme".data, "acme".data, "Hello".data, "Body".data⟩])
        ⟨some "Jean.Dupont@acme.fr ".data, 1, "FOUND".data, "Jean".data,
          "Dupont".data, "Acme".data, "acme".data⟩] ∧
    (0 : ℚ) < 1 :=
  (C2_outbox_dedup
    [⟨some "Jean.Dupont@acme.fr ".data, 1, "FOUND".data, "Jean".data,
      "Dupont".data, "Acme".data, "acme".data⟩,
     ⟨some "jean.dupont@acme.fr".data, 0, "FOUND".data, "J".data,
      "D".data, "Acme".data, "acme".data⟩]
    [⟨"Acme".data, "acme".data, "Hello".data, "Body".data⟩]
    (by norm_num [List.pairwise_cons])).2
    "jean.dupont@acme.fr".data (by decide) _ _ rfl (by norm_num)

/-! ## C6: find_domain cache semantics -/

theorem cacheInsert_lookup {α : Type} (cache : List (List Char × α))
    (k : List Char) (v : α) : (cacheInsert cache k v).lookup k = some v := by
  induction cache with
  | nil => simp [cacheInsert, List.lookup]
  | cons p rest ih =>
    obtain ⟨k', v'⟩ := p
    simp only [cacheInsert]
    split_ifs with h
    · simp [List.lookup]
    · have hk : (k == k') = false :=
        beq_eq_false_iff_ne.mpr (fun hh => h hh.symm)
      simp [List.lookup, hk, ih]

theorem find_domain_hit (w : SearchWorld)
    (cache : List (List Char × Option (List Char))) (company : List Char)
    (v : Option (List Char)) (hslug : company_to_slug company ≠ [])
    (hlk : cache.lookup (company_to_slug company) = some v) :
    find_domain w cache company false = ⟨v, cache, 0, 0⟩ := by
  simp [find_domain, if_neg hslug, hlk]

theorem find_domain_miss_cache (w : SearchWorld)
    (cache : List (List Char × Option (List Char))) (company : List Char)
    (hslug : company_to_slug company ≠ [])
    (hlk : cache.lookup (company_to_slug company) = none) :
    (find_domain w cache company false).cache =
      cacheInsert cache (company_to_slug company)
        (find_domain w cache company false).value := by
  simp only [find_domain, if_neg hslug, Bool.false_eq_true, if_false, hlk]
  rcases hfm : firstMax (tallyDomains w company) with _ | best
  · simp only [hfm]
  · simp only [hfm]
    split_ifs <;> rfl

theorem find_domain_force_searches (w : SearchWorld)
    (cache : List (List Char × Option (List Char))) (company : List Char)
    (hslug : company_to_slug company ≠ []) :
    (find_domain w cache company true).searchCalls = 2 := by
  simp only [find_domain, if_neg hslug, if_true]
  rcases hfm : firstMax (tallyDomains w company) with _ | best
  · simp only [hfm]
  · simp only [hfm]
    split_ifs <;> rfl

/-- C6: calling `find_domain` twice without forceRefresh issues no search,
DNS or MX attempt on the second call, which returns the value of the first
(including a cached null); and calling with forceRefresh = true when a null
is cached re-runs the resolution (both search queries are issued) instead of
returning the cached null. -/
theorem C6_cache_semantics (w : SearchWorld)
    (cache : List (List Char × Option (List Char))) (company : List Char) :
    ((find_domain w (find_domain w cache company false).cache company false).searchCalls = 0 ∧
     (find_domain w (find_domain w cache company false).cache company false).mxCalls = 0 ∧
     (find_domain w (find_domain w cache company false).cache company false).value =
       (find_domain w cache company false).value) ∧
    (cache.lookup (company_to_slug company) = some none →
      company_to_slug company ≠ [] →
      (find_domain w cache company true).searchCalls = 2) := by
  refine ⟨?_, fun _ hslug => find_domain_force_searches w cache company hslug⟩
  by_cases hslug : company_to_slug company = []
  · simp [find_domain, hslug]
  · rcases hlk : cache.lookup (company_to_slug company) with _ | v
    · have hc := find_domain_miss_cache w cache company hslug hlk
      have hl2 : (find_domain w cache company false).cache.lookup
          (company_to_slug company) =
          some (find_domain w cache company false).value := by
        rw [hc]
        exact cacheInsert_lookup _ _ _
      rw [find_domain_hit w _ company _ hslug hl2]
      exact ⟨rfl, rfl, rfl⟩
    · have h1 := find_domain_hit w cache company v hslug hlk
      rw [h1, find_domain_hit w cache company v hslug hlk]
      exact ⟨rfl, rfl, rfl⟩

/-- C6 (witness): with a cached null for "acme" and forceRefresh, the two
search queries are re-issued. -/
theorem C6_cache_semantics_witness :
    (find_domain ⟨fun _ => [], fun _ => false⟩
      [("acme".data, (none : Option (List Char)))] "Acme".data true).searchCalls = 2 :=
  (C6_cache_semantics ⟨fun _ => [], fun _ => false⟩
    [("acme".data, none)] "Acme".data).2 (by decide) (by decide)

/-! ## C8: the mailbox-existence probe -/

/-- C8 (counterexample): a server whose RCPT reply is 251 — a 2xx acceptance
("user not local; will forward") — is mapped to "unknown", not "valid": the
code only accepts code 250.  (Also, an address without `@` raises IndexError
at `email.split("@")[1]`, modelled by the `none` result.) -/
theorem C8_counterexample :
    (⟨fun _ => some [(10, "mx.b.com".data)], fun _ => TransportOutcome.rcpt 251,
        fun _ => none, fun _ => none, 0⟩ : VerifWorld).session "a@b.com".data =
      TransportOutcome.rcpt 251 ∧
    (200 ≤ 251 ∧ 251 < 300) ∧
    smtp_check_email
      ⟨fun _ => some [(10, "mx.b.com".data)], fun _ => TransportOutcome.rcpt 251,
        fun _ => none, fun _ => none, 0⟩ "a@b.com".data = some "unknown".data ∧
    smtp_check_email
      ⟨fun _ => some [(10, "mx.b.com".data)], fun _ => TransportOutcome.rcpt 251,
        fun _ => none, fun _ => none, 0⟩ "a@b.com".data ≠ some "valid".data := by
  refine ⟨rfl, by decide, by decide, by decide⟩

/-- C8 (amended): for every address containing `@`, the probe is total and
returns one of exactly three values: "valid" exactly when the MX host
resolves and the session completes with RCPT code 250, "invalid" exactly
when the MX host resolves and the session completes with one of the codes
550, 551, 552, 553, 554, and "unknown" for every other outcome (missing MX,
any exception — timeout, disconnect, transport failure — or any other reply
code, 2xx and 5xx included).  On an address without `@` the function is not
total: `email.split("@")[1]` raises IndexError. -/
theorem C8_probe_amended (w : VerifWorld) (email : List Char)
    (hat : '@' ∈ email) :
    ∃ r, smtp_check_email w email = some r ∧
      (r = "valid".data ∨ r = "invalid".data ∨ r = "unknown".data) ∧
      (r = "valid".data ↔
        (_get_mx_host w ((email.dropWhile (fun c => c ≠ '@')).drop 1)).isSome ∧
        w.session email = TransportOutcome.rcpt 250) ∧
      (r = "invalid".data ↔
        (_get_mx_host w ((email.dropWhile (fun c => c ≠ '@')).drop 1)).isSome ∧
        ∃ c ∈ [550, 551, 552, 553, 554], w.session email = TransportOutcome.rcpt c) := by
  have hc : email.contains '@' = true := by simpa using hat
  have hsplit : afterFirstAt email =
      some ((email.dropWhile (fun c => c ≠ '@')).drop 1) := by
    simp [afterFirstAt, hc, hat]
  simp only [smtp_check_email, hsplit]
  rcases hmx : _get_mx_host w ((email.dropWhile (fun c => c ≠ '@')).drop 1) with _ | host <;>
    simp only [hmx]
  · exact ⟨"unknown".data, rfl, by simp, by simp, by simp⟩
  · rcases hsess : w.session email with _ | code <;> simp only [hsess]
    · refine ⟨"unknown".data, rfl, by simp, by simp [hsess], by simp [hsess]⟩
    · by_cases h250 : code = 250
      · subst h250
        refine ⟨"valid".data, by simp, by simp, by simp [hsess], ?_⟩
        simp only [hsess]
        constructor
        · intro hv
          exact absurd hv (by decide)
        · rintro ⟨-, c, hcmem, hcode⟩
          have : (250 : Nat) = c := by
            injection hcode
          rw [← this] at hcmem
          simp at hcmem
      · by_cases h5xx : code ∈ [550, 551, 552, 553, 554]
        · refine ⟨"invalid".data, by simp [h250, h5xx], ?_, ?_, ?_⟩
          · simp
          · simp only [hsess]
            constructor
            · intro hv
              exact absurd hv (by decide)
            · rintro ⟨-, hcode⟩
              have : code = 250 := by injection hcode
              exact absurd this h250
          · simp only [hsess]
            refine ⟨fun _ => ⟨by simp, code, h5xx, rfl⟩, fun _ => by simp⟩
        · refine ⟨"unknown".data, by simp [h250, h5xx], by simp, ?_, ?_⟩
          · simp only [hsess]
            constructor
            · intro hv
              exact absurd hv (by decide)
            · rintro ⟨-, hcode⟩
              have : code = 250 := by injection hcode
              exact absurd this h250
          · simp only [hsess]
            constructor
            · intro hv
              exact absurd hv (by decide)
            · rintro ⟨-, c, hcmem, hcode⟩
              have : code = c := by injection hcode
              rw [this] at h5xx
              exact absurd hcmem h5xx

/-- C8 (witness): a resolving MX host and a 250 reply yield "valid". -/
theorem C8_probe_amended_witness :
    ∃ r, smtp_check_email
        (⟨fun _ => some [(10, "mx.b.com".data)], fun _ => TransportOutcome.rcpt 250,
          fun _ => none, fun _ => none, 0⟩ : VerifWorld) "a@b.com".data = some r ∧
      (r = "valid".data ∨ r = "invalid".data ∨ r = "unknown".data) ∧
      (r = "valid".data ↔
        (_get_mx_host
          (⟨fun _ => some [(10, "mx.b.com".data)], fun _ => TransportOutcome.rcpt 250,
            fun _ => none, fun _ => none, 0⟩ : VerifWorld)
          (("a@b.com".data.dropWhile (fun c => c ≠ '@')).drop 1)).isSome ∧
        (⟨fun _ => some [(10, "mx.b.com".data)], fun _ => TransportOutcome.rcpt 250,
          fun _ => none, fun _ => none, 0⟩ : VerifWorld).session "a@b.com".data =
          TransportOutcome.rcpt 250) ∧
      (r = "invalid".data ↔
        (_get_mx_host
          (⟨fun _ => some [(10, "mx.b.com".data)], fun _ => TransportOutcome.rcpt 250,
            fun _ => none, fun _ => none, 0⟩ : VerifWorld)
          (("a@b.com".data.dropWhile (fun c => c ≠ '@')).drop 1)).isSome ∧
        ∃ c ∈ [550, 551, 552, 553, 554],
          (⟨fun _ => some [(10, "mx.b.com".data)], fun _ => TransportOutcome.rcpt 250,
            fun _ => none, fun _ => none, 0⟩ : VerifWorld).session "a@b.com".data =
            TransportOutcome.rcpt c) :=
  C8_probe_amended
    ⟨fun _ => some [(10, "mx.b.com".data)], fun _ => TransportOutcome.rcpt 250,
      fun _ => none, fun _ => none, 0⟩ "a@b.com".data (by decide)

/-! ## C7: the catch-all branch of find_best_email -/

theorem filterMap_ne_nil {α β : Type} {f : α → Option β} {l : List α} {a : α}
    {b : β} (ha : a ∈ l) (hfa : f a = some b) : l.filterMap f ≠ [] := by
  induction l with
  | nil => simp at ha
  | cons c rest ih =>
    rcases List.mem_cons.mp ha with rfl | ha'
    · simp [List.filterMap_cons, hfa]
    · rcases hfc : f c with _ | d
      · simp only [List.filterMap_cons, hfc]
        exact ih ha'
      · simp [List.filterMap_cons, hfc]

theorem fbe_candidates_ne_nil (f l domain : List Char)
    (kp : Option (List Char)) : fbe_candidates f l domain kp ≠ [] := by
  rcases kp with _ | p
  · exact filterMap_ne_nil (List.mem_cons_self _ _) rfl
  · simp only [fbe_candidates]
    by_cases hp1 : p = "prenom.nom".data
    · have hmem : "prenomnom".data ∈
          p :: PATTERN_NAMES.filter (fun q => !(q == p)) := by
        apply List.mem_cons_of_mem
        apply List.mem_filter.mpr
        refine ⟨by simp [PATTERN_NAMES, PATTERN_DEFS], ?_⟩
        simp only [Bool.not_eq_eq_eq_not, Bool.not_false, Bool.not_true]
        rw [beq_eq_false_iff_ne, hp1]
        decide
      exact filterMap_ne_nil hmem rfl
    · have hmem : "prenom.nom".data ∈
          p :: PATTERN_NAMES.filter (fun q => !(q == p)) := by
        apply List.mem_cons_of_mem
        apply List.mem_filter.mpr
        refine ⟨by simp [PATTERN_NAMES, PATTERN_DEFS], ?_⟩
        simp only [Bool.not_eq_eq_eq_not, Bool.not_false, Bool.not_true]
        rw [beq_eq_false_iff_ne]
        exact fun hh => hp1 hh.symm
      exact filterMap_ne_nil hmem rfl

/-- C7: with non-empty normalized names and domain, no Hunter.io provider,
and skipSmtp = false, if the catch-all probe (a random nonexistent
local-part) reports valid then `find_best_email` returns the first-priority
candidate at confidence 0.55 when its pattern is prenom.nom and 0.45
otherwise, issues exactly one SMTP probe in total (so no per-candidate
probes), and the debug trail mentions catch-all. -/
theorem C7_catch_all (w : VerifWorld) (firstname lastname domain : List Char)
    (kp : Option (List Char))
    (hf : normalize_name_part firstname ≠ [])
    (hl : normalize_name_part lastname ≠ [])
    (hd : domain ≠ [])
    (hh : w.hunterSearch domain = none)
    (hca : smtp_check_email w (fakeProbeAddr w domain) = some "valid".data) :
    ∀ c0 : List Char × List Char,
      (fbe_candidates (normalize_name_part firstname)
        (normalize_name_part lastname) domain kp).head? = some c0 →
      find_best_email w firstname lastname domain kp false =
        some ⟨some c0.2, c0.1,
          (if c0.1 = "prenom.nom".data then 0.55 else 0.45),
          "domaine catch-all (SMTP non fiable)".data, 1⟩ ∧
      (∃ pre post : List Char, "domaine catch-all (SMTP non fiable)".data =
        pre ++ "catch-all".data ++ post) := by
  intro c0 hc0
  have hcands : ∃ cs, fbe_candidates (normalize_name_part firstname)
      (normalize_name_part lastname) domain kp = c0 :: cs := by
    rcases hfc : fbe_candidates (normalize_name_part firstname)
        (normalize_name_part lastname) domain kp with _ | ⟨a, as⟩
    · rw [hfc] at hc0
      simp at hc0
    · rw [hfc] at hc0
      simp only [List.head?_cons, Option.some.injEq] at hc0
      exact ⟨as, by rw [hc0]⟩
  obtain ⟨cs, hcands⟩ := hcands
  have hguard : ¬(normalize_name_part firstname = [] ∨
      normalize_name_part lastname = [] ∨ domain = []) := by
    simp [hf, hl, hd]
  refine ⟨?_, "domaine ".data, " (SMTP non fiable)".data, by decide⟩
  simp only [find_best_email, if_neg hguard, hh, local_strategy, hcands, hca,
    Bool.false_eq_true, if_false]
  simp

/-- C7 (witness): concrete world with a catch-all server (every RCPT gets
250), names Jean Dupont at acme.fr, no known pattern. -/
theorem C7_catch_all_witness :
    find_best_email
      (⟨fun _ => some [(10, "mx.acme.fr".data)], fun _ => TransportOutcome.rcpt 250,
        fun _ => none, fun _ => none, 12345⟩ : VerifWorld)
      "Jean".data "Dupont".data "acme.fr".data none false =
      some ⟨some ("prenom.nom".data, "jean.dupont@acme.fr".data).2,
        ("prenom.nom".data, "jean.dupont@acme.fr".data).1,
        (if ("prenom.nom".data, "jean.dupont@acme.fr".data).1 = "prenom.nom".data
          then 0.55 else 0.45),
        "domaine catch-all (SMTP non fiable)".data, 1⟩ ∧
    (∃ pre post : List Char, "domaine catch-all (SMTP non fiable)".data =
      pre ++ "catch-all".data ++ post) :=
  C7_catch_all
    ⟨fun _ => some [(10, "mx.acme.fr".data)], fun _ => TransportOutcome.rcpt 250,
      fun _ => none, fun _ => none, 12345⟩
    "Jean".data "Dupont".data "acme.fr".data none
    (by decide) (by decide) (by decide) rfl (by decide)
    ("prenom.nom".data, "jean.dupont@acme.fr".data) (by decide)

/-- C10 (witness): concrete cache-missing call with one domain email. -/
theorem C10_no_infer_failure_witness :
    (tallyOf (normNamesOf none)
      (["abc@x.io".data].filter (fun e => ('@' :: "x.io".data).isSuffixOf e))).votes ≠ [] ∧
    (0.35 : ℚ) ≤ (infer_pattern [] "x.io".data ["abc@x.io".data] none false).1.confidence :=
  ⟨(C10_no_infer_failure [] "x.io".data ["abc@x.io".data] none false
      (Or.inr rfl) (by decide)).2.1,
   (C10_no_infer_failure [] "x.io".data ["abc@x.io".data] none false
      (Or.inr rfl) (by decide)).2.2⟩

end B2B
